import Mathlib

/-!
Verification of the sniffnet packet-analysis and traffic-aggregation core.

The development shallowly embeds the Rust functions of
`src/networking/manage_packets.rs` and `src/networking/types/app_protocol.rs`:
Rust string slices become lists of characters, machine integers become `Nat`
(all the involved quantities are non-negative and no arithmetic overflows are
reachable from parsed headers), hash maps become association lists, timestamps
become natural numbers, and fallible operations (`unwrap` on parses) return
`Option`.
-/

namespace Sniffnet

/-- Rust string slices (`&str`) are modelled as lists of characters. -/
abbrev RStr := List Char

/-- `str::split` on a single separator character; always returns at least one
(possibly empty) part. -/
def splitChar (c : Char) : RStr → List RStr
  | [] => [[]]
  | x :: xs =>
    let r := splitChar c xs
    if x = c then [] :: r else (x :: r.headI) :: r.tail

/-- Interleave a separator character between string parts. -/
def joinChar (c : Char) : List RStr → RStr
  | [] => []
  | [p] => p
  | p :: ps => p ++ c :: joinChar c ps

/-- Value of an ASCII decimal digit character. -/
def decDigit (c : Char) : Option Nat :=
  if '0' ≤ c ∧ c ≤ '9' then some (c.toNat - 48) else none

/-- Value of an ASCII hexadecimal digit character, either case. -/
def hexDigit (c : Char) : Option Nat :=
  if '0' ≤ c ∧ c ≤ '9' then some (c.toNat - 48)
  else if 'a' ≤ c ∧ c ≤ 'f' then some (c.toNat - 87)
  else if 'A' ≤ c ∧ c ≤ 'F' then some (c.toNat - 55)
  else none

/-- Accumulating decimal evaluation of a digit string. -/
def decValueAux : RStr → Nat → Option Nat
  | [], acc => some acc
  | c :: cs, acc =>
    match decDigit c with
    | some d => decValueAux cs (10 * acc + d)
    | none => none

/-- Decimal value of a non-empty all-digit string. -/
def decValue : RStr → Option Nat
  | [] => none
  | s => decValueAux s 0

/-- Accumulating hexadecimal evaluation of a digit string. -/
def hexValueAux : RStr → Nat → Option Nat
  | [], acc => some acc
  | c :: cs, acc =>
    match hexDigit c with
    | some d => hexValueAux cs (16 * acc + d)
    | none => none

/-- Hexadecimal value of a non-empty all-hex-digit string. -/
def hexValue : RStr → Option Nat
  | [] => none
  | s => hexValueAux s 0

/-- Rust `u8::from_str` (used by `is_multicast_address` through
`parse::<u8>()`): an optional leading plus sign, then at least one decimal
digit; values beyond 255 are an overflow error. -/
def parseU8 (s : RStr) : Option Nat :=
  let digits := match s with
    | c :: rest => if c = '+' then rest else c :: rest
    | [] => []
  match decValue digits with
  | some n => if n ≤ 255 then some n else none
  | none => none

/-- An IPv4 address: four octets. -/
structure Ipv4 where
  o0 : Nat
  o1 : Nat
  o2 : Nat
  o3 : Nat
  deriving DecidableEq, Repr

/-- One octet group of a textual IPv4 address, as the platform parser accepts
it: decimal digits with no leading zero, value at most 255. -/
def parseIpv4Octet (s : RStr) : Option Nat :=
  match s with
  | [] => none
  | c :: cs =>
    if c = '0' ∧ cs ≠ [] then none
    else
      match decValue (c :: cs) with
      | some n => if n ≤ 255 then some n else none
      | none => none

/-- Modelled from the spec: the platform textual IPv4 parser
(`Ipv4Addr::from_str`, an external collaborator of the source), reached by
`is_loopback`, `is_local_connection` and address parsing: four dot-separated
octet groups. -/
def parseIpv4 (s : RStr) : Option Ipv4 :=
  match splitChar '.' s with
  | [g0, g1, g2, g3] =>
    match parseIpv4Octet g0, parseIpv4Octet g1, parseIpv4Octet g2,
        parseIpv4Octet g3 with
    | some a, some b, some c, some d => some ⟨a, b, c, d⟩
    | _, _, _, _ => none
  | _ => none

/-- A textual IPv6 group: one to four hexadecimal digits. -/
def parseIpv6Group (s : RStr) : Option Nat :=
  if s = [] ∨ 4 < s.length then none else hexValue s

/-- Hex groups of a colon-separated part list. -/
def parseIpv6Groups : List RStr → Option (List Nat)
  | [] => some []
  | p :: ps =>
    match parseIpv6Group p, parseIpv6Groups ps with
    | some g, some gs => some (g :: gs)
    | _, _ => none

/-- Hex groups where the final part may be an embedded dotted-quad IPv4
address contributing two groups. -/
def parseIpv6GroupsTail : List RStr → Option (List Nat)
  | [] => some []
  | [p] =>
    if '.' ∈ p then
      match parseIpv4 p with
      | some x => some [x.o0 * 256 + x.o1, x.o2 * 256 + x.o3]
      | none => none
    else
      match parseIpv6Group p with
      | some g => some [g]
      | none => none
  | p :: ps =>
    match parseIpv6Group p, parseIpv6GroupsTail ps with
    | some g, some gs => some (g :: gs)
    | _, _ => none

/-- Index of the first empty part. -/
def idxOfNil : List RStr → Nat
  | [] => 0
  | p :: ps => if p = [] then 0 else idxOfNil ps + 1

/-- Locate the double-colon compression marker among the colon-separated
parts of an IPv6 textual form: `none` for a malformed part list, `some none`
when there is no compression, and `some (some (pre, post))` for the parts
before and after a unique marker. -/
def splitAtCompression (parts : List RStr) :
    Option (Option (List RStr × List RStr)) :=
  if ([] : RStr) ∉ parts then some none
  else if parts = [[], [], []] then some (some ([], []))
  else if 2 ≤ parts.length ∧ parts.headI = [] ∧ parts.tail.headI = [] then
    let rest := parts.tail.tail
    if rest ≠ [] ∧ ([] : RStr) ∉ rest then some (some ([], rest)) else none
  else
    let i := idxOfNil parts
    let pre := parts.take i
    let post := parts.drop (i + 1)
    if pre ≠ [] ∧ ([] : RStr) ∉ pre then
      if post = [[]] then some (some (pre, []))
      else if post ≠ [] ∧ ([] : RStr) ∉ post then some (some (pre, post))
      else none
    else none

/-- Modelled from the spec: the platform textual IPv6 parser
(`Ipv6Addr::from_str`): full eight-group form or a unique `::` compression,
optionally with an embedded dotted-quad tail. -/
def parseIpv6 (s : RStr) : Option (List Nat) :=
  let parts := splitChar ':' s
  match splitAtCompression parts with
  | none => none
  | some none =>
    match parseIpv6GroupsTail parts with
    | some gs => if gs.length = 8 then some gs else none
    | none => none
  | some (some (pre, post)) =>
    match parseIpv6Groups pre, parseIpv6GroupsTail post with
    | some l, some r =>
      if l.length + r.length < 8 then
        some (l ++ List.replicate (8 - (l.length + r.length)) 0 ++ r)
      else none
    | _, _ => none

/-- An IP address: four IPv4 octets or eight 16-bit IPv6 groups. -/
inductive IpAddr where
  | v4 (x : Ipv4)
  | v6 (groups : List Nat)
  deriving DecidableEq, Repr

/-- Modelled from the spec: the platform textual address parser
(`IpAddr::from_str`): IPv4 form first, otherwise IPv6 form. -/
def parseIpAddr (s : RStr) : Option IpAddr :=
  match parseIpv4 s with
  | some x => some (IpAddr.v4 x)
  | none =>
    match parseIpv6 s with
    | some gs => some (IpAddr.v6 gs)
    | none => none

/-- Decimal rendering of a natural number. -/
def natToDec (n : Nat) : RStr := Nat.toDigits 10 n

/-- Lowercase hexadecimal rendering of a natural number. -/
def natToHex (n : Nat) : RStr := Nat.toDigits 16 n

/-- Modelled from the spec: the platform `Display` form of an IPv4 address,
four decimal octets joined by dots. -/
def ipv4ToRStr (x : Ipv4) : RStr :=
  joinChar '.' [natToDec x.o0, natToDec x.o1, natToDec x.o2, natToDec x.o3]

/-- Length of the run of zero groups starting at index `i`. -/
def zeroRunAt (gs : List Nat) (i : Nat) : Nat :=
  ((gs.drop i).takeWhile (fun g => g == 0)).length

/-- The leftmost longest run of zero groups: start index and length. -/
def longestZeroRun (gs : List Nat) : Nat × Nat :=
  ((List.range gs.length).map (fun i => (i, zeroRunAt gs i))).foldl
    (fun best c => if best.2 < c.2 then c else best) (0, 0)

/-- Modelled from the spec: the platform `Display` form of an IPv6 address:
the IPv4-mapped special case as an embedded dotted quad, otherwise lowercase
hex groups with the leftmost longest run (of length at least two) of zero
groups compressed to a double colon. -/
def ipv6ToRStr (gs : List Nat) : RStr :=
  if gs.length = 8 ∧ gs.take 6 = [0, 0, 0, 0, 0, 65535] then
    let g6 := gs.getD 6 0
    let g7 := gs.getD 7 0
    "::ffff:".toList ++ ipv4ToRStr ⟨g6 / 256, g6 % 256, g7 / 256, g7 % 256⟩
  else
    let run := longestZeroRun gs
    if 1 < run.2 then
      joinChar ':' ((gs.take run.1).map natToHex) ++ "::".toList ++
        joinChar ':' ((gs.drop (run.1 + run.2)).map natToHex)
    else
      joinChar ':' (gs.map natToHex)

/-- The platform `Display`/`to_string` form of an address. -/
def ipAddrToRStr : IpAddr → RStr
  | .v4 x => ipv4ToRStr x
  | .v6 gs => ipv6ToRStr gs

/-- Well-formedness of a model address: the octet and group bounds that the
Rust address types guarantee by construction. -/
def IpAddr.wf : IpAddr → Prop
  | .v4 x => x.o0 < 256 ∧ x.o1 < 256 ∧ x.o2 < 256 ∧ x.o3 < 256
  | .v6 gs => gs.length = 8 ∧ ∀ g ∈ gs, g < 65536

/-- The platform loopback predicates: `127.0.0.0/8` for IPv4, `::1` for
IPv6. -/
def IpAddr.isLoopbackAddr : IpAddr → Bool
  | .v4 x => x.o0 == 127
  | .v6 gs => gs == [0, 0, 0, 0, 0, 0, 0, 1]

/-- `is_loopback` in `manage_packets.rs`: parse the textual address, falling
back to the unspecified address on failure, then apply the platform loopback
predicate. -/
def is_loopback (address_to_lookup : RStr) : Bool :=
  ((parseIpAddr address_to_lookup).getD (IpAddr.v4 ⟨0, 0, 0, 0⟩)).isLoopbackAddr

/-- A network interface address as provided by the capture library
(`pcap::Address`). -/
structure Address where
  addr : IpAddr
  netmask : Option IpAddr
  broadcast_addr : Option IpAddr
  dst_addr : Option IpAddr
  deriving DecidableEq, Repr

/-- Traffic direction of a connection (`TrafficDirection`). -/
inductive TrafficDirection where
  | Incoming
  | Outgoing
  deriving DecidableEq, Repr

/-- Modelled from the spec: the `Default` value of `TrafficDirection`
(its declaration is outside the analyzed sources). The source only reads it
for keys already present in the map, whose stored direction is reused, so
the choice is unobservable. -/
def defaultTrafficDirection : TrafficDirection := .Incoming

/-- The address-membership cascade of `get_traffic_direction`, reached when
the loopback early return does not fire. -/
def trafficDirectionByAddress (source_ip destination_ip : RStr)
    (my_interface_addresses_string : List RStr) : TrafficDirection :=
  if source_ip ∈ my_interface_addresses_string then .Outgoing
  else if source_ip ≠ "0.0.0.0".toList then .Incoming
  else if destination_ip ∉ my_interface_addresses_string then .Outgoing
  else .Incoming

/-- `get_traffic_direction` in `manage_packets.rs`. -/
def get_traffic_direction (source_ip destination_ip : RStr)
    (source_port dest_port : Option Nat)
    (my_interface_addresses : List Address) : TrafficDirection :=
  let my_interface_addresses_string :=
    my_interface_addresses.map (fun a => ipAddrToRStr a.addr)
  if is_loopback source_ip && is_loopback destination_ip then
    match source_port, dest_port with
    | some sport, some dport =>
      if dport < sport then .Outgoing else .Incoming
    | _, _ =>
      trafficDirectionByAddress source_ip destination_ip
        my_interface_addresses_string
  else
    trafficDirectionByAddress source_ip destination_ip
      my_interface_addresses_string

/-- Traffic type of the remote host (`TrafficType`). -/
inductive TrafficType where
  | Unicast
  | Multicast
  | Broadcast
  deriving DecidableEq, Repr

/-- `is_multicast_address`: an IPv6 textual prefix check, or for dotted forms
a parse of the first group, whose `unwrap` panic is modelled by `none`. -/
def is_multicast_address (address : RStr) : Option Bool :=
  if ':' ∈ address then
    some (decide ("ff".toList <+: address))
  else
    match parseU8 (splitChar '.' address).headI with
    | some first_group => some (decide (224 ≤ first_group ∧ first_group ≤ 239))
    | none => none

/-- `is_broadcast_address` in `manage_packets.rs`. -/
def is_broadcast_address (address : RStr)
    (my_interface_addresses : List Address) : Bool :=
  if address = "255.255.255.255".toList then true
  else
    let my_broadcast_addresses := my_interface_addresses.map (fun a =>
      ipAddrToRStr (a.broadcast_addr.getD (IpAddr.v4 ⟨255, 255, 255, 255⟩)))
    decide (address ∈ my_broadcast_addresses)

/-- `get_traffic_type`; `none` models the panic that `is_multicast_address`
can raise on a first dotted group that is not a `u8`. -/
def get_traffic_type (destination_ip : RStr)
    (my_interface_addresses : List Address)
    (traffic_direction : TrafficDirection) : Option TrafficType :=
  if traffic_direction = .Outgoing then
    match is_multicast_address destination_ip with
    | some mc =>
      if mc then some .Multicast
      else if is_broadcast_address destination_ip my_interface_addresses then
        some .Broadcast
      else some .Unicast
    | none => none
  else
    some .Unicast

/-- IP version tags (`IpVersion`). -/
inductive IpVersion where
  | IPv4
  | IPv6
  deriving DecidableEq, Repr

/-- The four octets of an IPv4 address. -/
def Ipv4.octets (x : Ipv4) : List Nat := [x.o0, x.o1, x.o2, x.o3]

/-- The sixteen octets of an IPv6 address given by its eight groups. -/
def ipv6Octets : List Nat → List Nat
  | [] => []
  | g :: gs => g / 256 :: g % 256 :: ipv6Octets gs

/-- Rust `Ipv4Addr::is_link_local`: the `169.254.0.0/16` block. -/
def Ipv4.isLinkLocal (x : Ipv4) : Bool := x.o0 == 169 && x.o1 == 254

/-- Octet-wise AND of a netmask with an address, as the source's per-octet
loop computes it. -/
def maskOctets (netmask octets : List Nat) : List Nat :=
  List.zipWith (fun m o => m &&& o) netmask octets

/-- The textual IP version used by `is_local_connection` to pair the
candidate with interface addresses. -/
def candidateVersion (address_to_lookup : RStr) : IpVersion :=
  if ':' ∈ address_to_lookup then .IPv6 else .IPv4

/-- One iteration of the `is_local_connection` loop: whether the given
interface address certifies the candidate as local (the loop only ever
raises the flag, so the loop is the disjunction of these checks). -/
def localAgainst (address_to_lookup : RStr) (ty : IpVersion)
    (address : Address) : Bool :=
  match address.addr with
  | .v4 local_addr =>
    if ty = .IPv4 then
      let address_to_lookup_parsed := (parseIpv4 address_to_lookup).getD ⟨0, 0, 0, 0⟩
      if address_to_lookup_parsed.isLinkLocal then true
      else
        match address.netmask with
        | some (.v4 netmask) =>
          decide (maskOctets netmask.octets local_addr.octets
            = maskOctets netmask.octets address_to_lookup_parsed.octets)
        | _ => false
    else false
  | .v6 local_addr =>
    if ty = .IPv6 then
      let address_to_lookup_parsed :=
        (parseIpv6 address_to_lookup).getD (List.replicate 8 0)
      if "fe80".toList <+: address_to_lookup then true
      else
        match address.netmask with
        | some (.v6 netmask) =>
          decide (maskOctets (ipv6Octets netmask) (ipv6Octets local_addr)
            = maskOctets (ipv6Octets netmask) (ipv6Octets address_to_lookup_parsed))
        | _ => false
    else false

/-- `is_local_connection` in `manage_packets.rs`. -/
def is_local_connection (address_to_lookup : RStr)
    (my_interface_addresses : List Address) : Bool :=
  let ty := candidateVersion address_to_lookup
  my_interface_addresses.foldl
    (fun ret_val address => ret_val || localAgainst address_to_lookup ty address)
    false

/-- `mac_from_dec_to_hex`: each byte as two lowercase hex digits, joined by
colons. -/
def mac_from_dec_to_hex (mac_dec : List Nat) : RStr :=
  joinChar ':' (mac_dec.map (fun n => if n < 16 then '0' :: natToHex n else natToHex n))

/-- Enum representing the possible observed values of application layer
protocol (`AppProtocol` in `app_protocol.rs`). -/
inductive AppProtocol where
  | FTP | SSH | Telnet | SMTP | TACACS | DNS | DHCP | TFTP | HTTP | POP
  | NTP | NetBIOS | POP3S | IMAP | SNMP | BGP | LDAP | HTTPS | LDAPS | FTPS
  | mDNS | IMAPS | SSDP | XMPP | Unknown | NotApplicable
  deriving DecidableEq, Repr

/-- The static well-known-port table
(`from_port_to_application_protocol` in `app_protocol.rs`); a missing port
(ICMP) yields `NotApplicable`, an unmapped port yields `Unknown`. -/
def from_port_to_application_protocol (port : Option Nat) : AppProtocol :=
  match port with
  | some res =>
    if 20 ≤ res ∧ res ≤ 21 then .FTP
    else if res = 22 then .SSH
    else if res = 23 then .Telnet
    else if res = 25 then .SMTP
    else if res = 49 then .TACACS
    else if res = 53 then .DNS
    else if 67 ≤ res ∧ res ≤ 68 then .DHCP
    else if res = 69 then .TFTP
    else if res = 80 ∨ res = 8080 then .HTTP
    else if 109 ≤ res ∧ res ≤ 110 then .POP
    else if res = 123 then .NTP
    else if 137 ≤ res ∧ res ≤ 139 then .NetBIOS
    else if res = 143 ∨ res = 220 then .IMAP
    else if (161 ≤ res ∧ res ≤ 162) ∨ res = 199 then .SNMP
    else if res = 179 then .BGP
    else if res = 389 then .LDAP
    else if res = 443 then .HTTPS
    else if res = 636 then .LDAPS
    else if 989 ≤ res ∧ res ≤ 990 then .FTPS
    else if res = 993 then .IMAPS
    else if res = 995 then .POP3S
    else if res = 1900 then .SSDP
    else if res = 5222 then .XMPP
    else if res = 5353 then .mDNS
    else .Unknown
  | none => .NotApplicable

/-- Application-protocol guess from the two ports
(`get_app_protocol` in `manage_packets.rs`). -/
def get_app_protocol (src_port dst_port : Option Nat) : AppProtocol :=
  let application_protocol := from_port_to_application_protocol src_port
  if application_protocol = AppProtocol.Unknown then
    from_port_to_application_protocol dst_port
  else
    application_protocol

/-- Transport protocols tracked by the sniffer (`Protocol`). -/
inductive Protocol where
  | TCP
  | UDP
  | ICMP
  deriving DecidableEq, Repr

/-- Connection key (`AddressPortPair`): textual endpoint addresses, the two
optional ports, and the transport protocol. -/
structure AddressPortPair where
  address1 : RStr
  port1 : Option Nat
  address2 : RStr
  port2 : Option Nat
  protocol : Protocol
  deriving DecidableEq, Repr

/-- ICMP message types (`IcmpType`): a v4 or v6 type tag. -/
inductive IcmpType where
  | v4 (t : Nat)
  | v6 (t : Nat)
  deriving DecidableEq, Repr

/-- Per-connection statistics (`InfoAddressPortPair`); timestamps are
modelled as natural numbers. -/
structure InfoAddressPortPair where
  mac_address1 : Option RStr
  mac_address2 : Option RStr
  transmitted_bytes : Nat
  transmitted_packets : Nat
  initial_timestamp : Nat
  final_timestamp : Nat
  app_protocol : AppProtocol
  traffic_direction : TrafficDirection
  icmp_types : List (IcmpType × Nat)
  deriving DecidableEq, Repr

/-- Host identity (`Host`): resolved domain, ASN and country; the ASN and
country payloads are opaque to the analyzed code and modelled textually. -/
structure Host where
  domain : RStr
  asn : RStr
  country : RStr
  deriving DecidableEq, Repr

/-- Modelled from the spec: `DataInfo` (declared outside the analyzed
sources), the cumulative bytes/packets pair accumulated for an address or
host. -/
structure DataInfo where
  transmitted_bytes : Nat
  transmitted_packets : Nat
  deriving DecidableEq, Repr

/-- Modelled from the spec: the `Default` of `DataInfo`, zero counters. -/
def DataInfo.zero : DataInfo := ⟨0, 0⟩

/-- Modelled from the spec: `+=` on `DataInfo` adds counters pointwise. -/
def DataInfo.add (x y : DataInfo) : DataInfo :=
  ⟨x.transmitted_bytes + y.transmitted_bytes,
   x.transmitted_packets + y.transmitted_packets⟩

/-- Per-host statistics (`DataInfoHost`). -/
structure DataInfoHost where
  data_info : DataInfo
  is_favorite : Bool
  is_loopback : Bool
  is_local : Bool
  traffic_type : TrafficType
  deriving DecidableEq, Repr

/-- The shared aggregate state (`InfoTraffic`, restricted to the fields the
analyzed functions touch); hash maps and sets are modelled as association
lists and lists. -/
structure InfoTraffic where
  map : List (AddressPortPair × InfoAddressPortPair)
  addresses_waiting_resolution : List (RStr × DataInfo)
  addresses_resolved : List (RStr × (RStr × Host))
  hosts : List (Host × DataInfoHost)
  favorite_hosts : List Host
  favorites_last_interval : List Host
  deriving DecidableEq, Repr

/-- The fresh state a capture session starts from. -/
def emptyInfoTraffic : InfoTraffic := ⟨[], [], [], [], [], []⟩

/-- Association-list lookup (`HashMap::get`). -/
def lookupA {α β : Type} [DecidableEq α] (k : α) : List (α × β) → Option β
  | [] => none
  | (a, b) :: rest => if a = k then some b else lookupA k rest

/-- Association-list insert-or-replace (`HashMap::insert`). -/
def insertA {α β : Type} [DecidableEq α] (k : α) (v : β) :
    List (α × β) → List (α × β)
  | [] => [(k, v)]
  | (a, b) :: rest => if a = k then (k, v) :: rest else (a, b) :: insertA k v rest

/-- Association-list removal (`HashMap::remove`). -/
def removeA {α β : Type} [DecidableEq α] (k : α) :
    List (α × β) → List (α × β)
  | [] => []
  | (a, b) :: rest => if a = k then rest else (a, b) :: removeA k rest

/-- The `entry(k).and_modify(f).or_insert_with(ini)` idiom. -/
def entryA {α β : Type} [DecidableEq α] (k : α) (f : β → β) (ini : β) :
    List (α × β) → List (α × β)
  | [] => [(k, ini)]
  | (a, b) :: rest => if a = k then (a, f b) :: rest else (a, b) :: entryA k f ini rest

/-- Set insertion (`HashSet::insert`). -/
def insertS {α : Type} [DecidableEq α] (x : α) (s : List α) : List α :=
  if x ∈ s then s else x :: s

/-- `get_address_to_lookup`: the presumed-remote endpoint of a key. -/
def get_address_to_lookup (key : AddressPortPair)
    (traffic_direction : TrafficDirection) : RStr :=
  match traffic_direction with
  | .Outgoing => key.address2
  | .Incoming => key.address1

/-- Modelled from the spec: `get_domain_from_r_dns` (declared outside the
analyzed sources) derives the host's domain name from the rDNS string; the
exact derivation is immaterial to the claims and is modelled as the
identity. -/
def get_domain_from_r_dns (r_dns : RStr) : RStr := r_dns

/-- `modify_or_insert_in_map` in `manage_packets.rs`. External effects are
passed as arguments: `now` is the sampled clock, `my_interface_addresses`
the device address list the source re-queries for a first packet. Returns
the updated shared state and the copy of the updated entry the source
returns. -/
def modify_or_insert_in_map (info_traffic : InfoTraffic)
    (key : AddressPortPair) (my_interface_addresses : List Address)
    (mac_addresses : Option RStr × Option RStr) (icmp_type : IcmpType)
    (exchanged_bytes : Nat) (application_protocol : AppProtocol)
    (now : Nat) : InfoTraffic × InfoAddressPortPair :=
  let traffic_direction :=
    if (lookupA key info_traffic.map).isNone then
      get_traffic_direction key.address1 key.address2 key.port1 key.port2
        my_interface_addresses
    else defaultTrafficDirection
  let touch : InfoAddressPortPair → InfoAddressPortPair := fun info =>
    { info with
      transmitted_bytes := info.transmitted_bytes + exchanged_bytes
      transmitted_packets := info.transmitted_packets + 1
      final_timestamp := now
      icmp_types :=
        if key.protocol = Protocol.ICMP then
          entryA icmp_type (fun n => n + 1) 1 info.icmp_types
        else info.icmp_types }
  let fresh : InfoAddressPortPair :=
    { mac_address1 := mac_addresses.1
      mac_address2 := mac_addresses.2
      transmitted_bytes := exchanged_bytes
      transmitted_packets := 1
      initial_timestamp := now
      final_timestamp := now
      app_protocol := application_protocol
      traffic_direction := traffic_direction
      icmp_types :=
        if key.protocol = Protocol.ICMP then [(icmp_type, 1)] else [] }
  let new_info :=
    match lookupA key info_traffic.map with
    | some info => touch info
    | none => fresh
  let new_map := entryA key touch fresh info_traffic.map
  let favorites_last_interval :=
    match lookupA (get_address_to_lookup key new_info.traffic_direction)
        info_traffic.addresses_resolved with
    | some host_info =>
      if host_info.2 ∈ info_traffic.favorite_hosts then
        insertS host_info.2 info_traffic.favorites_last_interval
      else info_traffic.favorites_last_interval
    | none => info_traffic.favorites_last_interval
  ({ info_traffic with
      map := new_map
      favorites_last_interval := favorites_last_interval },
   new_info)

/-- The rDNS name retained by `reverse_dns_lookup`: the lookup result, or
the literal address when the lookup failed or returned an empty string. -/
def derivedRDns (lookup_result : Option RStr) (address_to_lookup : RStr) :
    RStr :=
  match lookup_result with
  | some result => if result = [] then address_to_lookup else result
  | none => address_to_lookup

/-- `reverse_dns_lookup` in `manage_packets.rs`, from the point where the
externally obtained data is in hand: `lookup_result` is the rDNS outcome
(`none` models a failed lookup), `country` and `asn` the database answers.
`none` models the two reachable panics (the `unwrap` on the address parse
and the one inside `is_multicast_address`). -/
def reverse_dns_lookup (info_traffic : InfoTraffic) (key : AddressPortPair)
    (traffic_direction : TrafficDirection)
    (my_interface_addresses : List Address)
    (lookup_result : Option RStr) (country asn : RStr) :
    Option InfoTraffic :=
  let address_to_lookup := get_address_to_lookup key traffic_direction
  match parseIpAddr address_to_lookup with
  | none => none
  | some _ =>
    match get_traffic_type address_to_lookup my_interface_addresses
        traffic_direction with
    | none => none
    | some traffic_type =>
      let is_loopback_flag := is_loopback address_to_lookup
      let is_local := is_local_connection address_to_lookup my_interface_addresses
      let r_dns := derivedRDns lookup_result address_to_lookup
      let new_host : Host :=
        { domain := get_domain_from_r_dns r_dns, asn := asn, country := country }
      let other_data :=
        (lookupA address_to_lookup info_traffic.addresses_waiting_resolution).getD
          DataInfo.zero
      some { info_traffic with
        addresses_waiting_resolution :=
          removeA address_to_lookup info_traffic.addresses_waiting_resolution
        addresses_resolved :=
          insertA address_to_lookup (r_dns, new_host) info_traffic.addresses_resolved
        hosts :=
          entryA new_host
            (fun data_info_host =>
              { data_info_host with
                data_info := data_info_host.data_info.add other_data })
            { data_info := other_data
              is_favorite := false
              is_loopback := is_loopback_flag
              is_local := is_local
              traffic_type := traffic_type }
            info_traffic.hosts
        favorites_last_interval :=
          if new_host ∈ info_traffic.favorite_hosts then
            insertS new_host info_traffic.favorites_last_interval
          else info_traffic.favorites_last_interval }

/-- The non-key arguments of one `modify_or_insert_in_map` call. -/
structure PacketCall where
  ifaceAddrs : List Address
  macs : Option RStr × Option RStr
  icmpType : IcmpType
  exchangedBytes : Nat
  appProtocol : AppProtocol
  now : Nat
  deriving Repr

/-- Apply `modify_or_insert_in_map` for one call. -/
def applyCall (s : InfoTraffic) (key : AddressPortPair) (c : PacketCall) :
    InfoTraffic :=
  (modify_or_insert_in_map s key c.ifaceAddrs c.macs c.icmpType
    c.exchangedBytes c.appProtocol c.now).1

/-- Apply a sequence of calls for the same key. -/
def applyCalls (s : InfoTraffic) (key : AddressPortPair) :
    List PacketCall → InfoTraffic
  | [] => s
  | c :: cs => applyCalls (applyCall s key c) key cs

/-- The states reachable by the aggregator together with the time of the
last applied packet: the session starts from the fresh state, and the
sampled clock never runs backwards. -/
inductive ReachableAt : InfoTraffic → Nat → Prop where
  | init (t : Nat) : ReachableAt emptyInfoTraffic t
  | step (s : InfoTraffic) (t : Nat) (key : AddressPortPair) (c : PacketCall)
      (hr : ReachableAt s t) (hnow : t ≤ c.now) :
      ReachableAt (applyCall s key c) c.now

/-- Transmitted packets recorded for a key (0 when absent). -/
def packetsOf (s : InfoTraffic) (k : AddressPortPair) : Nat :=
  ((lookupA k s.map).map (fun i => i.transmitted_packets)).getD 0

/-- Transmitted bytes recorded for a key (0 when absent). -/
def bytesOf (s : InfoTraffic) (k : AddressPortPair) : Nat :=
  ((lookupA k s.map).map (fun i => i.transmitted_bytes)).getD 0

/-- Final timestamp recorded for a key. -/
def finalTsOf (s : InfoTraffic) (k : AddressPortPair) : Option Nat :=
  (lookupA k s.map).map (fun i => i.final_timestamp)

/-- Histogram count recorded for a key and an ICMP type (0 when absent). -/
def icmpCountOf (s : InfoTraffic) (k : AddressPortPair) (t : IcmpType) : Nat :=
  match lookupA k s.map with
  | some i => ((lookupA t i.icmp_types).getD 0)
  | none => 0

/-- An Ethernet II header (`etherparse::Ethernet2Header`), reduced to the
fields the source reads: six-byte source and destination MAC addresses. -/
structure Ethernet2Header where
  source : List Nat
  destination : List Nat
  deriving DecidableEq, Repr

/-- An IPv4 header as etherparse delivers it, reduced to the fields the
source reads; `ihl` is the header length in 32-bit words, `total_len` the
declared total length. -/
structure Ipv4Header where
  source : Ipv4
  destination : Ipv4
  ihl : Nat
  total_len : Nat
  deriving DecidableEq, Repr

/-- Modelled from the spec: etherparse stores in `payload_len` the declared
total length minus the 4-byte-aligned header length. -/
def Ipv4Header.payload_len (h : Ipv4Header) : Nat := h.total_len - 4 * h.ihl

/-- An IPv6 header, reduced to the fields the source reads; addresses are
the sixteen raw bytes. -/
structure Ipv6Header where
  source : List Nat
  destination : List Nat
  payload_length : Nat
  deriving DecidableEq, Repr

/-- Pair up sixteen address bytes into eight 16-bit groups
(`IpAddr::from` on a byte array). -/
def bytesToGroups : List Nat → List Nat
  | b1 :: b2 :: rest => (b1 * 256 + b2) :: bytesToGroups rest
  | _ => []

/-- The network header variants etherparse can deliver
(`etherparse::IpHeader`, extension headers omitted as the source ignores
them). -/
inductive IpHeader where
  | Version4 (h : Ipv4Header)
  | Version6 (h : Ipv6Header)
  deriving DecidableEq, Repr

/-- The transport header variants etherparse can deliver
(`etherparse::TransportHeader`). -/
inductive TransportHeader where
  | Udp (source_port destination_port : Nat)
  | Tcp (source_port destination_port : Nat)
  | Icmpv4 (icmp_type : Nat)
  | Icmpv6 (icmp_type : Nat)
  deriving DecidableEq, Repr

/-- Modelled from the spec: `IcmpTypeV4::from_etherparse` tags the raw
ICMPv4 type (its declaration is outside the analyzed sources). -/
def icmpTypeV4FromEtherparse (t : Nat) : IcmpType := .v4 t

/-- Modelled from the spec: `IcmpTypeV6::from_etherparse` tags the raw
ICMPv6 type. -/
def icmpTypeV6FromEtherparse (t : Nat) : IcmpType := .v6 t

/-- The decoded headers of one captured frame
(`etherparse::PacketHeaders`). -/
structure PacketHeaders where
  link : Option Ethernet2Header
  ip : Option IpHeader
  transport : Option TransportHeader
  deriving DecidableEq, Repr

/-- The filter-relevant record populated by the analyzer
(`PacketFiltersFields`). -/
structure PacketFiltersFields where
  ip_version : IpVersion
  source : IpAddr
  dest : IpAddr
  sport : Option Nat
  dport : Option Nat
  protocol : Protocol
  deriving DecidableEq, Repr

/-- `analyze_link_header`: the new values of the two MAC outputs. -/
def analyze_link_header (link_header : Option Ethernet2Header) :
    Option RStr × Option RStr :=
  match link_header with
  | some header =>
    (some (mac_from_dec_to_hex header.source),
     some (mac_from_dec_to_hex header.destination))
  | none => (none, none)

/-- `analyze_network_header`: the skip flag and the new values of the
by-reference outputs (unchanged when the frame is skipped). -/
def analyze_network_header (network_header : Option IpHeader)
    (exchanged_bytes : Nat) (network_protocol : IpVersion)
    (address1 address2 : IpAddr) :
    Bool × Nat × IpVersion × IpAddr × IpAddr :=
  match network_header with
  | some (.Version4 h) =>
    (true, h.payload_len, .IPv4, .v4 h.source, .v4 h.destination)
  | some (.Version6 h) =>
    (true, h.payload_length, .IPv6, .v6 (bytesToGroups h.source),
     .v6 (bytesToGroups h.destination))
  | none => (false, exchanged_bytes, network_protocol, address1, address2)

/-- `analyze_transport_header`: the skip flag and the new values of the
by-reference outputs (unchanged when the frame is skipped). -/
def analyze_transport_header (transport_header : Option TransportHeader)
    (port1 port2 : Option Nat) (protocol : Protocol) (icmp_type : IcmpType) :
    Bool × Option Nat × Option Nat × Protocol × IcmpType :=
  match transport_header with
  | some (.Udp sp dp) => (true, some sp, some dp, .UDP, icmp_type)
  | some (.Tcp sp dp) => (true, some sp, some dp, .TCP, icmp_type)
  | some (.Icmpv4 t) => (true, none, none, .ICMP, icmpTypeV4FromEtherparse t)
  | some (.Icmpv6 t) => (true, none, none, .ICMP, icmpTypeV6FromEtherparse t)
  | none => (false, port1, port2, protocol, icmp_type)

/-- The outputs of `analyze_headers`: the optional key and the final values
of the by-reference arguments. -/
structure AnalyzeOutput where
  result : Option AddressPortPair
  mac_addresses : Option RStr × Option RStr
  exchanged_bytes : Nat
  icmp_type : IcmpType
  packet_filters_fields : PacketFiltersFields
  deriving DecidableEq, Repr

/-- `analyze_headers` in `manage_packets.rs`. -/
def analyze_headers (headers : PacketHeaders)
    (mac_addresses : Option RStr × Option RStr) (exchanged_bytes : Nat)
    (icmp_type : IcmpType) (pff : PacketFiltersFields) : AnalyzeOutput :=
  let macs := analyze_link_header headers.link
  let netOut := analyze_network_header headers.ip exchanged_bytes
    pff.ip_version pff.source pff.dest
  let pff1 := { pff with
    ip_version := netOut.2.2.1, source := netOut.2.2.2.1, dest := netOut.2.2.2.2 }
  if netOut.1 = false then
    { result := none, mac_addresses := macs, exchanged_bytes := netOut.2.1,
      icmp_type := icmp_type, packet_filters_fields := pff1 }
  else
    let trOut := analyze_transport_header headers.transport pff1.sport
      pff1.dport pff1.protocol icmp_type
    let pff2 := { pff1 with
      sport := trOut.2.1, dport := trOut.2.2.1, protocol := trOut.2.2.2.1 }
    if trOut.1 = false then
      { result := none, mac_addresses := macs, exchanged_bytes := netOut.2.1,
        icmp_type := trOut.2.2.2.2, packet_filters_fields := pff2 }
    else
      { result := some
          ⟨ipAddrToRStr pff2.source, pff2.sport, ipAddrToRStr pff2.dest,
           pff2.dport, pff2.protocol⟩,
        mac_addresses := macs, exchanged_bytes := netOut.2.1,
        icmp_type := trOut.2.2.2.2, packet_filters_fields := pff2 }

/-- A captured frame: its decoded headers together with how many bytes the
capture actually retained (the snaplen-truncated slice length, which the
analyzer never reads). -/
structure CapturedFrame where
  headers : PacketHeaders
  captured_len : Nat
  deriving DecidableEq, Repr

/-- Analysis of a captured frame: the analyzer only sees the headers. -/
def analyze_frame (f : CapturedFrame)
    (mac_addresses : Option RStr × Option RStr) (exchanged_bytes : Nat)
    (icmp_type : IcmpType) (pff : PacketFiltersFields) : AnalyzeOutput :=
  analyze_headers f.headers mac_addresses exchanged_bytes icmp_type pff

/-- The traffic-direction rule exactly as the claim words it: an ordered
four-step cascade. -/
def specTrafficDirection (source destination : RStr)
    (source_port dest_port : Option Nat)
    (ifaceAddrs : List Address) : TrafficDirection :=
  let ifaceStrings := ifaceAddrs.map (fun a => ipAddrToRStr a.addr)
  if is_loopback source && is_loopback destination
      && source_port.isSome && dest_port.isSome then
    if dest_port.getD 0 < source_port.getD 0 then .Outgoing else .Incoming
  else if source ∈ ifaceStrings then .Outgoing
  else if source ≠ "0.0.0.0".toList then .Incoming
  else if destination ∉ ifaceStrings then .Outgoing
  else .Incoming

/-- The multicast test as the claim words it: an IPv4 address with first
octet in `[224, 239]`, or an IPv6 textual form starting with `ff`. -/
def specIsMulticast (address : RStr) : Bool :=
  (match parseIpv4 address with
   | some x => decide (224 ≤ x.o0 ∧ x.o0 ≤ 239)
   | none => false) ||
  (decide (':' ∈ address) && decide ("ff".toList <+: address))

/-- The broadcast test as the claim words it. -/
def specIsBroadcast (address : RStr) (ifaceAddrs : List Address) : Bool :=
  decide (address = "255.255.255.255".toList) ||
  ifaceAddrs.any (fun a =>
    decide (address =
      ipAddrToRStr (a.broadcast_addr.getD (IpAddr.v4 ⟨255, 255, 255, 255⟩))))

/-- The traffic-type rule exactly as the claim words it (a total
function). -/
def specTrafficType (address : RStr) (ifaceAddrs : List Address)
    (direction : TrafficDirection) : TrafficType :=
  if direction = .Incoming then .Unicast
  else if specIsMulticast address then .Multicast
  else if specIsBroadcast address ifaceAddrs then .Broadcast
  else .Unicast

/-- The locality rule as the claim words it, for one interface address: same
IP version, and either a link-local candidate or equal netmask-AND subnet
prefixes. -/
def specLocalWitness (candidate : RStr) (a : Address) : Prop :=
  match a.addr with
  | .v4 local_addr =>
    candidateVersion candidate = .IPv4 ∧
      (((parseIpv4 candidate).getD ⟨0, 0, 0, 0⟩).isLinkLocal = true ∨
       ∃ m : Ipv4, a.netmask = some (.v4 m) ∧
         maskOctets m.octets local_addr.octets
           = maskOctets m.octets (((parseIpv4 candidate).getD ⟨0, 0, 0, 0⟩).octets))
  | .v6 local_addr =>
    candidateVersion candidate = .IPv6 ∧
      ("fe80".toList <+: candidate ∨
       ∃ m : List Nat, a.netmask = some (.v6 m) ∧
         maskOctets (ipv6Octets m) (ipv6Octets local_addr)
           = maskOctets (ipv6Octets m)
              (ipv6Octets ((parseIpv6 candidate).getD (List.replicate 8 0))))

/-- A concrete two-address resolution scenario: both raw addresses are
waiting for resolution with distinct pending counters. -/
def wMergeState : InfoTraffic :=
  { emptyInfoTraffic with
    addresses_waiting_resolution :=
      [("1.2.3.4".toList, ⟨10, 1⟩), ("4.3.2.1".toList, ⟨20, 2⟩)] }

/-- The first connection key of the scenario. -/
def wKey1 : AddressPortPair :=
  ⟨"1.2.3.4".toList, none, "9.9.9.9".toList, none, Protocol.TCP⟩

/-- The second connection key of the scenario. -/
def wKey2 : AddressPortPair :=
  ⟨"4.3.2.1".toList, none, "9.9.9.9".toList, none, Protocol.TCP⟩

/-- The scenario state after resolving the first raw address. -/
def wS1 : InfoTraffic :=
  (reverse_dns_lookup wMergeState wKey1 TrafficDirection.Incoming []
    (some "h".toList) "IT".toList "AS1".toList).getD emptyInfoTraffic

/-- The scenario state after also resolving the second raw address. -/
def wS2 : InfoTraffic :=
  (reverse_dns_lookup wS1 wKey2 TrafficDirection.Incoming []
    (some "h".toList) "IT".toList "AS1".toList).getD emptyInfoTraffic

/-- C8: `get_app_protocol` equals the static port table applied to the source
port when that yields something other than `Unknown`, and otherwise equals the
table applied to the destination port; a missing port maps to `NotApplicable`,
so a connection whose two ports are both unmapped is recorded as `Unknown` and
a portless connection as `NotApplicable`. -/
theorem get_app_protocol_spec :
    (∀ s d : Option Nat, get_app_protocol s d =
      if from_port_to_application_protocol s ≠ AppProtocol.Unknown then
        from_port_to_application_protocol s
      else
        from_port_to_application_protocol d) ∧
    from_port_to_application_protocol none = AppProtocol.NotApplicable ∧
    (∀ s d : Nat,
      from_port_to_application_protocol (some s) = AppProtocol.Unknown →
      from_port_to_application_protocol (some d) = AppProtocol.Unknown →
      get_app_protocol (some s) (some d) = AppProtocol.Unknown) ∧
    get_app_protocol none none = AppProtocol.NotApplicable := by
  refine ⟨?_, rfl, ?_, rfl⟩
  · intro s d
    by_cases h : from_port_to_application_protocol s = AppProtocol.Unknown <;>
      simp [get_app_protocol, h]
  · intro s d h1 h2
    simp [get_app_protocol, h1, h2]

/-- Witness for C8 at concrete inputs: ports 12345 and 54321 are both
unmapped, so the guessed protocol is `Unknown`. -/
theorem get_app_protocol_spec_witness :
    get_app_protocol (some 12345) (some 54321) = AppProtocol.Unknown :=
  get_app_protocol_spec.2.2.1 12345 54321 (by decide) (by decide)

lemma lookupA_entryA_self {α β : Type} [DecidableEq α] (k : α) (f : β → β)
    (ini : β) (m : List (α × β)) :
    lookupA k (entryA k f ini m)
      = some (match lookupA k m with | some v => f v | none => ini) := by
  induction m with
  | nil => simp [entryA, lookupA]
  | cons p rest ih =>
    obtain ⟨a, b⟩ := p
    by_cases h : a = k <;> simp [entryA, lookupA, h, ih]

lemma lookupA_entryA_other {α β : Type} [DecidableEq α] {k k' : α}
    (hne : k ≠ k') (f : β → β) (ini : β) (m : List (α × β)) :
    lookupA k (entryA k' f ini m) = lookupA k m := by
  induction m with
  | nil => simp [entryA, lookupA, Ne.symm hne]
  | cons p rest ih =>
    obtain ⟨a, b⟩ := p
    by_cases h : a = k' <;> by_cases h2 : a = k <;>
      simp_all [entryA, lookupA]

lemma lookupA_eq_none_of_not_mem {α β : Type} [DecidableEq α] {k : α}
    {m : List (α × β)} (h : k ∉ m.map Prod.fst) : lookupA k m = none := by
  induction m with
  | nil => simp [lookupA]
  | cons p rest ih =>
    obtain ⟨a, b⟩ := p
    simp only [List.map_cons, List.mem_cons] at h
    push_neg at h
    simp [lookupA, Ne.symm h.1, ih h.2]

lemma lookupA_removeA_self {α β : Type} [DecidableEq α] (k : α)
    {m : List (α × β)} (h : (m.map Prod.fst).Nodup) :
    lookupA k (removeA k m) = none := by
  induction m with
  | nil => simp [removeA, lookupA]
  | cons p rest ih =>
    obtain ⟨a, b⟩ := p
    simp only [List.map_cons, List.nodup_cons] at h
    by_cases hk : a = k
    · subst hk
      simpa [removeA] using lookupA_eq_none_of_not_mem h.1
    · simp [removeA, lookupA, hk, ih h.2]

lemma lookupA_removeA_other {α β : Type} [DecidableEq α] {k k' : α}
    (hne : k ≠ k') (m : List (α × β)) :
    lookupA k (removeA k' m) = lookupA k m := by
  induction m with
  | nil => simp [removeA, lookupA]
  | cons p rest ih =>
    obtain ⟨a, b⟩ := p
    by_cases h : a = k' <;> by_cases h2 : a = k <;>
      simp_all [removeA, lookupA]

lemma lookupA_insertA_self {α β : Type} [DecidableEq α] (k : α) (v : β)
    (m : List (α × β)) : lookupA k (insertA k v m) = some v := by
  induction m with
  | nil => simp [insertA, lookupA]
  | cons p rest ih =>
    obtain ⟨a, b⟩ := p
    by_cases h : a = k <;> simp [insertA, lookupA, h, ih]

lemma entryA_keys {α β : Type} [DecidableEq α] (k : α) (f : β → β) (ini : β)
    (m : List (α × β)) :
    (entryA k f ini m).map Prod.fst
      = if k ∈ m.map Prod.fst then m.map Prod.fst else m.map Prod.fst ++ [k] := by
  induction m with
  | nil => simp [entryA]
  | cons p rest ih =>
    obtain ⟨a, b⟩ := p
    by_cases h : a = k
    · simp [entryA, h]
    · by_cases h2 : k ∈ rest.map Prod.fst <;>
        simp [entryA, h, ih, h2, Ne.symm h]

lemma foldl_or_eq_any {α : Type} (l : List α) (f : α → Bool) (b : Bool) :
    l.foldl (fun r a => r || f a) b = (b || l.any f) := by
  induction l generalizing b with
  | nil => simp
  | cons a t ih => simp [List.foldl_cons, ih, Bool.or_assoc]

/-- C2: `get_traffic_direction` implements exactly the ordered rule the
specification states: (1) for loopback endpoints with both ports present,
`Outgoing` iff the source port exceeds the destination port (ties
`Incoming`); (2) else `Outgoing` when the source is an interface address;
(3) else `Incoming` when the source differs from `0.0.0.0`; (4) else
`Outgoing` exactly when the destination is not an interface address. -/
theorem get_traffic_direction_spec :
    ∀ (source destination : RStr) (sp dp : Option Nat)
      (ifaceAddrs : List Address),
      get_traffic_direction source destination sp dp ifaceAddrs
        = specTrafficDirection source destination sp dp ifaceAddrs := by
  intro s d sp dp l
  unfold get_traffic_direction specTrafficDirection
  cases sp <;> cases dp <;>
    by_cases h1 : is_loopback s <;> by_cases h2 : is_loopback d <;>
      simp [h1, h2, trafficDirectionByAddress]

lemma is_local_connection_eq_any (candidate : RStr)
    (ifaceAddrs : List Address) :
    is_local_connection candidate ifaceAddrs
      = ifaceAddrs.any (localAgainst candidate (candidateVersion candidate)) := by
  unfold is_local_connection
  rw [foldl_or_eq_any]
  simp

lemma localAgainst_iff (candidate : RStr) (a : Address) :
    localAgainst candidate (candidateVersion candidate) a = true
      ↔ specLocalWitness candidate a := by
  unfold localAgainst specLocalWitness
  cases haddr : a.addr with
  | v4 local_addr =>
    by_cases hty : candidateVersion candidate = IpVersion.IPv4
    · simp only [hty, if_pos rfl, true_and]
      by_cases hll : ((parseIpv4 candidate).getD ⟨0, 0, 0, 0⟩).isLinkLocal
      · simp [hll]
      · simp only [hll, if_neg, Bool.false_eq_true, false_or]
        cases hnm : a.netmask with
        | none => simp [hll]
        | some nm =>
          cases nm with
          | v4 m => simp [hll]
          | v6 m => simp [hll]
    · simp [hty]
  | v6 local_addr =>
    dsimp only
    by_cases hty : candidateVersion candidate = IpVersion.IPv6
    · rw [if_pos hty]
      simp only [hty, true_and]
      by_cases hll : "fe80".toList <+: candidate
      · rw [if_pos hll]
        exact ⟨fun _ => Or.inl hll, fun _ => rfl⟩
      · rw [if_neg hll]
        have hll2 : ¬ ['f', 'e', '8', '0'] <+: candidate := by simpa using hll
        cases hnm : a.netmask with
        | none => simp [hll2, hnm]
        | some nm =>
          cases nm with
          | v4 m => simp [hll2, hnm]
          | v6 m => simp [hll2, hnm]
    · rw [if_neg hty]
      simp [hty]

/-- C7: `is_local_connection` returns true iff some interface address of the
candidate's IP version certifies it: the candidate is link-local
(IPv4 `169.254.0.0/16`, IPv6 textual prefix `fe80`) or the netmask-AND
subnet prefixes agree octet-wise; versions never cross, and the empty
interface list always yields false. -/
theorem is_local_connection_spec :
    ∀ (candidate : RStr) (ifaceAddrs : List Address),
      (is_local_connection candidate ifaceAddrs = true
        ↔ ∃ a ∈ ifaceAddrs, specLocalWitness candidate a) ∧
      is_local_connection candidate [] = false := by
  intro c l
  constructor
  · rw [is_local_connection_eq_any, List.any_eq_true]
    constructor
    · rintro ⟨a, ha, hla⟩
      exact ⟨a, ha, (localAgainst_iff c a).1 hla⟩
    · rintro ⟨a, ha, hla⟩
      exact ⟨a, ha, (localAgainst_iff c a).2 hla⟩
  · simp [is_local_connection]

/-- C5: `analyze_headers` returns `None` (frame skipped) iff the network
layer is neither IPv4 nor IPv6 (etherparse then delivers no `IpHeader`) or
the transport layer is none of TCP/UDP/ICMPv4/ICMPv6 (no
`TransportHeader`); a missing link-layer header never causes a skip and
merely leaves both MAC outputs `None`. -/
theorem analyze_headers_spec :
    ∀ (headers : PacketHeaders) (macs : Option RStr × Option RStr)
      (bytes : Nat) (icmp : IcmpType) (pff : PacketFiltersFields),
      ((analyze_headers headers macs bytes icmp pff).result = none
        ↔ headers.ip = none ∨ headers.transport = none) ∧
      (headers.link = none →
        (analyze_headers headers macs bytes icmp pff).mac_addresses
          = (none, none)) := by
  intro h macs bytes icmp pff
  obtain ⟨link, ip, tr⟩ := h
  rcases ip with _ | (h4 | h6) <;>
    rcases tr with _ | (⟨sp, dp⟩ | ⟨sp, dp⟩ | t | t) <;>
    exact ⟨by simp [analyze_headers, analyze_network_header,
        analyze_transport_header],
      fun hl => by
        simp only at hl
        subst hl
        simp [analyze_headers, analyze_link_header, analyze_network_header,
          analyze_transport_header]⟩

/-- Witness for C5 at a concrete input: a frame with no link-layer header
but an IPv4+TCP payload is not skipped and has no MAC addresses. -/
theorem analyze_headers_spec_witness :
    (analyze_headers
      ⟨none, some (IpHeader.Version4 ⟨⟨1, 2, 3, 4⟩, ⟨5, 6, 7, 8⟩, 5, 60⟩),
        some (TransportHeader.Tcp 80 443)⟩
      (none, none) 0 (IcmpType.v4 0)
      ⟨IpVersion.IPv4, IpAddr.v4 ⟨0, 0, 0, 0⟩, IpAddr.v4 ⟨0, 0, 0, 0⟩,
        none, none, Protocol.TCP⟩).mac_addresses = (none, none) :=
  (analyze_headers_spec
    ⟨none, some (IpHeader.Version4 ⟨⟨1, 2, 3, 4⟩, ⟨5, 6, 7, 8⟩, 5, 60⟩),
      some (TransportHeader.Tcp 80 443)⟩
    (none, none) 0 (IcmpType.v4 0)
    ⟨IpVersion.IPv4, IpAddr.v4 ⟨0, 0, 0, 0⟩, IpAddr.v4 ⟨0, 0, 0, 0⟩,
      none, none, Protocol.TCP⟩).2 rfl

/-- C9: the analyzer's byte count comes from the network header's declared
payload length only — total length minus the 4-byte-aligned header length
for IPv4, the payload-length field for IPv6 — and is independent of the
number of bytes the capture actually retained for the frame. -/
theorem analyze_frame_bytes_spec :
    ∀ (f g : CapturedFrame), f.headers = g.headers →
      ∀ (macs : Option RStr × Option RStr) (bytes : Nat) (icmp : IcmpType)
        (pff : PacketFiltersFields),
        analyze_frame f macs bytes icmp pff
          = analyze_frame g macs bytes icmp pff ∧
        (∀ h4, f.headers.ip = some (IpHeader.Version4 h4) →
          (analyze_frame f macs bytes icmp pff).exchanged_bytes
            = h4.total_len - 4 * h4.ihl) ∧
        (∀ h6, f.headers.ip = some (IpHeader.Version6 h6) →
          (analyze_frame f macs bytes icmp pff).exchanged_bytes
            = h6.payload_length) := by
  intro f g hfg macs bytes icmp pff
  obtain ⟨⟨link, ip, tr⟩, clen⟩ := f
  simp only at hfg
  refine ⟨?_, ?_, ?_⟩
  · simp only [analyze_frame]
    rw [← hfg]
  · intro h4 hip
    simp only at hip
    subst hip
    rcases tr with _ | (⟨sp, dp⟩ | ⟨sp, dp⟩ | t | t) <;>
      simp [analyze_frame, analyze_headers, analyze_network_header,
        analyze_transport_header, Ipv4Header.payload_len]
  · intro h6 hip
    simp only at hip
    subst hip
    rcases tr with _ | (⟨sp, dp⟩ | ⟨sp, dp⟩ | t | t) <;>
      simp [analyze_frame, analyze_headers, analyze_network_header,
        analyze_transport_header]

/-- Witness for C9 at a concrete input: an IPv4 frame with total length 60
and a 5-word header yields 40 exchanged bytes whether 60 or 8 bytes were
captured. -/
theorem analyze_frame_bytes_spec_witness :
    (analyze_frame
      ⟨⟨none, some (IpHeader.Version4 ⟨⟨1, 2, 3, 4⟩, ⟨5, 6, 7, 8⟩, 5, 60⟩),
        some (TransportHeader.Udp 53 53)⟩, 8⟩
      (none, none) 0 (IcmpType.v4 0)
      ⟨IpVersion.IPv4, IpAddr.v4 ⟨0, 0, 0, 0⟩, IpAddr.v4 ⟨0, 0, 0, 0⟩,
        none, none, Protocol.TCP⟩).exchanged_bytes = 60 - 4 * 5 :=
  (analyze_frame_bytes_spec
    ⟨⟨none, some (IpHeader.Version4 ⟨⟨1, 2, 3, 4⟩, ⟨5, 6, 7, 8⟩, 5, 60⟩),
      some (TransportHeader.Udp 53 53)⟩, 8⟩
    ⟨⟨none, some (IpHeader.Version4 ⟨⟨1, 2, 3, 4⟩, ⟨5, 6, 7, 8⟩, 5, 60⟩),
      some (TransportHeader.Udp 53 53)⟩, 60⟩
    rfl (none, none) 0 (IcmpType.v4 0)
    ⟨IpVersion.IPv4, IpAddr.v4 ⟨0, 0, 0, 0⟩, IpAddr.v4 ⟨0, 0, 0, 0⟩,
      none, none, Protocol.TCP⟩).2.1 _ rfl

/-- C3: a `modify_or_insert_in_map` call for a key already in the map leaves
the entry's direction, MAC addresses, application protocol and initial
timestamp unchanged, whatever the arguments (including the interface address
list) are; only counters, the final timestamp and the ICMP histogram are
touched. -/
theorem modify_or_insert_frame_spec :
    ∀ (s : InfoTraffic) (key : AddressPortPair) (info : InfoAddressPortPair)
      (ifaceAddrs : List Address) (macs : Option RStr × Option RStr)
      (icmp : IcmpType) (bytes : Nat) (app : AppProtocol) (now : Nat),
      lookupA key s.map = some info →
      ∃ info',
        lookupA key
          (modify_or_insert_in_map s key ifaceAddrs macs icmp bytes app
            now).1.map = some info' ∧
        info'.traffic_direction = info.traffic_direction ∧
        info'.mac_address1 = info.mac_address1 ∧
        info'.mac_address2 = info.mac_address2 ∧
        info'.app_protocol = info.app_protocol ∧
        info'.initial_timestamp = info.initial_timestamp ∧
        info'.transmitted_bytes = info.transmitted_bytes + bytes ∧
        info'.transmitted_packets = info.transmitted_packets + 1 ∧
        info'.final_timestamp = now := by
  intro s key info ifa macs icmp bytes app now h
  have hm :
      lookupA key
        (modify_or_insert_in_map s key ifa macs icmp bytes app now).1.map
      = some
        { info with
          transmitted_bytes := info.transmitted_bytes + bytes
          transmitted_packets := info.transmitted_packets + 1
          final_timestamp := now
          icmp_types :=
            if key.protocol = Protocol.ICMP then
              entryA icmp (fun n => n + 1) 1 info.icmp_types
            else info.icmp_types } := by
    simp only [modify_or_insert_in_map]
    rw [lookupA_entryA_self, h]
  exact ⟨_, hm, rfl, rfl, rfl, rfl, rfl, rfl, rfl, rfl⟩

/-- Witness for C3 at a concrete input: a second packet for an existing TCP
key keeps direction, MACs, protocol guess and initial timestamp. -/
theorem modify_or_insert_frame_spec_witness :
    ∃ info',
      lookupA
        ⟨"1.2.3.4".toList, some 1, "5.6.7.8".toList, some 2, Protocol.TCP⟩
        (modify_or_insert_in_map
          { emptyInfoTraffic with
            map := [(⟨"1.2.3.4".toList, some 1, "5.6.7.8".toList, some 2,
              Protocol.TCP⟩,
              ⟨none, none, 10, 1, 3, 3, AppProtocol.Unknown,
                TrafficDirection.Incoming, []⟩)] }
          ⟨"1.2.3.4".toList, some 1, "5.6.7.8".toList, some 2, Protocol.TCP⟩
          [] (none, none) (IcmpType.v4 0) 7 AppProtocol.HTTP 9).1.map
        = some info' ∧
      info'.traffic_direction = TrafficDirection.Incoming ∧
      info'.mac_address1 = none ∧
      info'.mac_address2 = none ∧
      info'.app_protocol = AppProtocol.Unknown ∧
      info'.initial_timestamp = 3 ∧
      info'.transmitted_bytes = 10 + 7 ∧
      info'.transmitted_packets = 1 + 1 ∧
      info'.final_timestamp = 9 :=
  modify_or_insert_frame_spec _ _
    ⟨none, none, 10, 1, 3, 3, AppProtocol.Unknown, TrafficDirection.Incoming,
      []⟩ _ _ _ _ _ _ (by decide)

lemma packetsOf_applyCall (s : InfoTraffic) (key : AddressPortPair)
    (c : PacketCall) :
    packetsOf (applyCall s key c) key = packetsOf s key + 1 := by
  unfold packetsOf applyCall
  simp only [modify_or_insert_in_map]
  rw [lookupA_entryA_self]
  cases h : lookupA key s.map <;> simp [h]

lemma bytesOf_applyCall (s : InfoTraffic) (key : AddressPortPair)
    (c : PacketCall) :
    bytesOf (applyCall s key c) key = bytesOf s key + c.exchangedBytes := by
  unfold bytesOf applyCall
  simp only [modify_or_insert_in_map]
  rw [lookupA_entryA_self]
  cases h : lookupA key s.map <;> simp [h]

lemma finalTsOf_applyCall (s : InfoTraffic) (key : AddressPortPair)
    (c : PacketCall) :
    finalTsOf (applyCall s key c) key = some c.now := by
  unfold finalTsOf applyCall
  simp only [modify_or_insert_in_map]
  rw [lookupA_entryA_self]
  cases h : lookupA key s.map <;> simp [h]

lemma icmpCountOf_applyCall (s : InfoTraffic) (key : AddressPortPair)
    (c : PacketCall) (hicmp : key.protocol = Protocol.ICMP) :
    icmpCountOf (applyCall s key c) key c.icmpType
      = icmpCountOf s key c.icmpType + 1 := by
  unfold icmpCountOf applyCall
  simp only [modify_or_insert_in_map]
  rw [lookupA_entryA_self]
  cases h : lookupA key s.map with
  | none => simp [h, hicmp, lookupA]
  | some info =>
    simp only [h, hicmp, if_pos]
    rw [lookupA_entryA_self]
    cases h2 : lookupA c.icmpType info.icmp_types <;> simp [h2]

lemma packetsOf_applyCalls (key : AddressPortPair) :
    ∀ (calls : List PacketCall) (s : InfoTraffic),
      packetsOf (applyCalls s key calls) key
        = packetsOf s key + calls.length := by
  intro calls
  induction calls with
  | nil => intro s; simp [applyCalls]
  | cons c cs ih =>
    intro s
    simp only [applyCalls, ih, packetsOf_applyCall, List.length_cons]
    omega

lemma bytesOf_applyCalls (key : AddressPortPair) :
    ∀ (calls : List PacketCall) (s : InfoTraffic),
      bytesOf (applyCalls s key calls) key
        = bytesOf s key + (calls.map (fun c => c.exchangedBytes)).sum := by
  intro calls
  induction calls with
  | nil => intro s; simp [applyCalls]
  | cons c cs ih =>
    intro s
    simp only [applyCalls, ih, bytesOf_applyCall, List.map_cons, List.sum_cons]
    omega

lemma finalTsOf_applyCalls (key : AddressPortPair) :
    ∀ (calls : List PacketCall) (s : InfoTraffic) (h : calls ≠ []),
      finalTsOf (applyCalls s key calls) key
        = some ((calls.getLast h).now) := by
  intro calls
  induction calls with
  | nil => intro s h; exact absurd rfl h
  | cons c cs ih =>
    intro s h
    by_cases hcs : cs = []
    · subst hcs
      simp [applyCalls, finalTsOf_applyCall]
    · simp only [applyCalls, ih _ hcs, List.getLast_cons hcs]

lemma reachable_invariant :
    ∀ (s : InfoTraffic) (t : Nat), ReachableAt s t →
      ∀ (k : AddressPortPair) (info : InfoAddressPortPair),
        lookupA k s.map = some info →
        info.initial_timestamp ≤ info.final_timestamp
          ∧ info.final_timestamp ≤ t := by
  intro s t h
  induction h with
  | init t =>
    intro k info h
    simp [emptyInfoTraffic, lookupA] at h
  | step s t key c hr hnow ih =>
    intro k info hk
    by_cases hkey : k = key
    · subst hkey
      unfold applyCall at hk
      simp only [modify_or_insert_in_map] at hk
      rw [lookupA_entryA_self] at hk
      cases hl : lookupA k s.map with
      | none => rw [hl] at hk; cases hk; constructor <;> simp
      | some old =>
        rw [hl] at hk
        cases hk
        have hold := ih k old hl
        constructor
        · exact le_trans (le_trans hold.1 hold.2) hnow
        · exact le_refl _
    · unfold applyCall at hk
      simp only [modify_or_insert_in_map] at hk
      rw [lookupA_entryA_other hkey] at hk
      have hold := ih k info hk
      exact ⟨hold.1, le_trans hold.2 hnow⟩

/-- C1: N consecutive `modify_or_insert_in_map` calls with one key increase
its transmitted packets by exactly N and its transmitted bytes by the sum of
the calls' exchanged bytes; after at least one call the final timestamp is
the last call's timestamp; in every reachable state every entry has
`initial_timestamp ≤ final_timestamp`; and for an ICMP key each call bumps
the histogram count of that call's ICMP type by one. -/
theorem modify_or_insert_counters_spec :
    (∀ (s : InfoTraffic) (key : AddressPortPair) (calls : List PacketCall),
      packetsOf (applyCalls s key calls) key
        = packetsOf s key + calls.length ∧
      bytesOf (applyCalls s key calls) key
        = bytesOf s key + (calls.map (fun c => c.exchangedBytes)).sum) ∧
    (∀ (s : InfoTraffic) (key : AddressPortPair) (calls : List PacketCall)
        (h : calls ≠ []),
      finalTsOf (applyCalls s key calls) key
        = some ((calls.getLast h).now)) ∧
    (∀ (s : InfoTraffic) (t : Nat), ReachableAt s t →
      ∀ (k : AddressPortPair) (info : InfoAddressPortPair),
        lookupA k s.map = some info →
        info.initial_timestamp ≤ info.final_timestamp) ∧
    (∀ (s : InfoTraffic) (key : AddressPortPair) (c : PacketCall),
      key.protocol = Protocol.ICMP →
      icmpCountOf (applyCall s key c) key c.icmpType
        = icmpCountOf s key c.icmpType + 1) :=
  ⟨fun s key calls =>
      ⟨packetsOf_applyCalls key calls s, bytesOf_applyCalls key calls s⟩,
    fun s key calls h => finalTsOf_applyCalls key calls s h,
    fun s t hr k info hk => (reachable_invariant s t hr k info hk).1,
    fun s key c h => icmpCountOf_applyCall s key c h⟩

/-- Witness for C1 at concrete inputs: one ICMP packet at time 5 on the
fresh state sets the final timestamp to 5, bumps the type-8 histogram count
to 1, and the created entry satisfies the timestamp invariant. -/
theorem modify_or_insert_counters_spec_witness :
    finalTsOf
        (applyCalls emptyInfoTraffic
          ⟨"1.2.3.4".toList, none, "5.6.7.8".toList, none, Protocol.ICMP⟩
          [⟨[], (none, none), IcmpType.v4 8, 100, AppProtocol.NotApplicable,
            5⟩])
        ⟨"1.2.3.4".toList, none, "5.6.7.8".toList, none, Protocol.ICMP⟩
      = some 5 ∧
    icmpCountOf
        (applyCall emptyInfoTraffic
          ⟨"1.2.3.4".toList, none, "5.6.7.8".toList, none, Protocol.ICMP⟩
          ⟨[], (none, none), IcmpType.v4 8, 100, AppProtocol.NotApplicable,
            5⟩)
        ⟨"1.2.3.4".toList, none, "5.6.7.8".toList, none, Protocol.ICMP⟩
        (IcmpType.v4 8)
      = 0 + 1 ∧
    (⟨none, none, 100, 1, 5, 5, AppProtocol.NotApplicable,
        TrafficDirection.Incoming, [(IcmpType.v4 8, 1)]⟩ :
        InfoAddressPortPair).initial_timestamp
      ≤ (⟨none, none, 100, 1, 5, 5, AppProtocol.NotApplicable,
        TrafficDirection.Incoming, [(IcmpType.v4 8, 1)]⟩ :
        InfoAddressPortPair).final_timestamp :=
  ⟨modify_or_insert_counters_spec.2.1 _ _ _ (by simp),
   modify_or_insert_counters_spec.2.2.2 _ _ _ rfl,
   modify_or_insert_counters_spec.2.2.1 _ 5
     (ReachableAt.step emptyInfoTraffic 0
       ⟨"1.2.3.4".toList, none, "5.6.7.8".toList, none, Protocol.ICMP⟩
       ⟨[], (none, none), IcmpType.v4 8, 100, AppProtocol.NotApplicable, 5⟩
       (ReachableAt.init 0) (by decide))
     ⟨"1.2.3.4".toList, none, "5.6.7.8".toList, none, Protocol.ICMP⟩
     _ (by decide)⟩

lemma reverse_dns_lookup_fields (s : InfoTraffic) (key : AddressPortPair)
    (dir : TrafficDirection) (ifa : List Address) (lr : Option RStr)
    (country asn : RStr) (s' : InfoTraffic)
    (h : reverse_dns_lookup s key dir ifa lr country asn = some s') :
    ∃ tt,
      get_traffic_type (get_address_to_lookup key dir) ifa dir = some tt ∧
      s'.addresses_waiting_resolution
        = removeA (get_address_to_lookup key dir)
            s.addresses_waiting_resolution ∧
      s'.addresses_resolved
        = insertA (get_address_to_lookup key dir)
            (derivedRDns lr (get_address_to_lookup key dir),
             ⟨get_domain_from_r_dns
                (derivedRDns lr (get_address_to_lookup key dir)),
              asn, country⟩)
            s.addresses_resolved ∧
      s'.hosts
        = entryA
            (⟨get_domain_from_r_dns
                (derivedRDns lr (get_address_to_lookup key dir)),
              asn, country⟩ : Host)
            (fun dih =>
              { dih with
                data_info := dih.data_info.add
                  ((lookupA (get_address_to_lookup key dir)
                      s.addresses_waiting_resolution).getD DataInfo.zero) })
            ⟨(lookupA (get_address_to_lookup key dir)
                s.addresses_waiting_resolution).getD DataInfo.zero,
              false,
              is_loopback (get_address_to_lookup key dir),
              is_local_connection (get_address_to_lookup key dir) ifa, tt⟩
            s.hosts := by
  simp only [reverse_dns_lookup] at h
  cases hp : parseIpAddr (get_address_to_lookup key dir) with
  | none => rw [hp] at h; cases h
  | some a =>
    rw [hp] at h
    cases htt : get_traffic_type (get_address_to_lookup key dir) ifa dir with
    | none => rw [htt] at h; cases h
    | some tt =>
      rw [htt] at h
      cases h
      exact ⟨tt, rfl, rfl, rfl, rfl⟩

/-- C4: a successful `reverse_dns_lookup` removes the raw address's pending
data, records the raw address as resolved to the derived host, and upserts
the host map — initializing a new host's stats (non-favorite) from the
pending data, or adding the pending data into an existing host's counters
without touching its favorite flag; hence two raw addresses resolving to the
same host yield a single entry carrying the sum of both pending counters. -/
theorem reverse_dns_lookup_spec :
    (∀ (s : InfoTraffic) (key : AddressPortPair) (dir : TrafficDirection)
        (ifa : List Address) (lr : Option RStr) (country asn : RStr)
        (s' : InfoTraffic),
      reverse_dns_lookup s key dir ifa lr country asn = some s' →
      ((s.addresses_waiting_resolution.map Prod.fst).Nodup →
        lookupA (get_address_to_lookup key dir)
          s'.addresses_waiting_resolution = none) ∧
      lookupA (get_address_to_lookup key dir) s'.addresses_resolved
        = some (derivedRDns lr (get_address_to_lookup key dir),
            ⟨get_domain_from_r_dns
              (derivedRDns lr (get_address_to_lookup key dir)),
             asn, country⟩) ∧
      (lookupA
          (⟨get_domain_from_r_dns
              (derivedRDns lr (get_address_to_lookup key dir)),
            asn, country⟩ : Host) s.hosts = none →
        ∃ tt, get_traffic_type (get_address_to_lookup key dir) ifa dir
            = some tt ∧
          lookupA
            (⟨get_domain_from_r_dns
                (derivedRDns lr (get_address_to_lookup key dir)),
              asn, country⟩ : Host) s'.hosts
            = some
              ⟨(lookupA (get_address_to_lookup key dir)
                  s.addresses_waiting_resolution).getD DataInfo.zero,
                false,
                is_loopback (get_address_to_lookup key dir),
                is_local_connection (get_address_to_lookup key dir) ifa,
                tt⟩) ∧
      (∀ old,
        lookupA
          (⟨get_domain_from_r_dns
              (derivedRDns lr (get_address_to_lookup key dir)),
            asn, country⟩ : Host) s.hosts = some old →
        lookupA
          (⟨get_domain_from_r_dns
              (derivedRDns lr (get_address_to_lookup key dir)),
            asn, country⟩ : Host) s'.hosts
          = some
            { old with
              data_info := old.data_info.add
                ((lookupA (get_address_to_lookup key dir)
                    s.addresses_waiting_resolution).getD DataInfo.zero) }) ∧
      ((s.hosts.map Prod.fst).Nodup → (s'.hosts.map Prod.fst).Nodup)) ∧
    (∀ (s : InfoTraffic) (key1 key2 : AddressPortPair)
        (dir1 dir2 : TrafficDirection) (ifa1 ifa2 : List Address)
        (lr1 lr2 : Option RStr) (country1 asn1 country2 asn2 : RStr)
        (s1 s2 : InfoTraffic) (d1 d2 : DataInfo),
      get_address_to_lookup key1 dir1 ≠ get_address_to_lookup key2 dir2 →
      (⟨get_domain_from_r_dns
          (derivedRDns lr1 (get_address_to_lookup key1 dir1)),
        asn1, country1⟩ : Host)
        = ⟨get_domain_from_r_dns
            (derivedRDns lr2 (get_address_to_lookup key2 dir2)),
          asn2, country2⟩ →
      lookupA (get_address_to_lookup key1 dir1)
        s.addresses_waiting_resolution = some d1 →
      lookupA (get_address_to_lookup key2 dir2)
        s.addresses_waiting_resolution = some d2 →
      lookupA
        (⟨get_domain_from_r_dns
            (derivedRDns lr1 (get_address_to_lookup key1 dir1)),
          asn1, country1⟩ : Host) s.hosts = none →
      reverse_dns_lookup s key1 dir1 ifa1 lr1 country1 asn1 = some s1 →
      reverse_dns_lookup s1 key2 dir2 ifa2 lr2 country2 asn2 = some s2 →
      ∃ e,
        lookupA
          (⟨get_domain_from_r_dns
              (derivedRDns lr1 (get_address_to_lookup key1 dir1)),
            asn1, country1⟩ : Host) s2.hosts = some e ∧
        e.data_info.transmitted_bytes
          = d1.transmitted_bytes + d2.transmitted_bytes ∧
        e.data_info.transmitted_packets
          = d1.transmitted_packets + d2.transmitted_packets ∧
        e.is_favorite = false) := by
  constructor
  · intro s key dir ifa lr country asn s' h
    obtain ⟨tt, htt, hw, hr, hh⟩ :=
      reverse_dns_lookup_fields s key dir ifa lr country asn s' h
    refine ⟨?_, ?_, ?_, ?_, ?_⟩
    · intro hnd
      rw [hw]
      exact lookupA_removeA_self _ hnd
    · rw [hr]
      exact lookupA_insertA_self _ _ _
    · intro hnone
      refine ⟨tt, htt, ?_⟩
      rw [hh, lookupA_entryA_self, hnone]
    · intro old hold
      rw [hh, lookupA_entryA_self, hold]
    · intro hnd
      rw [hh, entryA_keys]
      by_cases hmem :
          (⟨get_domain_from_r_dns
              (derivedRDns lr (get_address_to_lookup key dir)),
            asn, country⟩ : Host) ∈ s.hosts.map Prod.fst
      · simp [hmem, hnd]
      · simp [hmem, hnd, List.nodup_append]
  · intro s key1 key2 dir1 dir2 ifa1 ifa2 lr1 lr2 country1 asn1 country2
      asn2 s1 s2 d1 d2 hane hhost hd1 hd2 hnone h1 h2
    obtain ⟨tt1, htt1, hw1, hr1, hh1⟩ :=
      reverse_dns_lookup_fields s key1 dir1 ifa1 lr1 country1 asn1 s1 h1
    obtain ⟨tt2, htt2, hw2, hr2, hh2⟩ :=
      reverse_dns_lookup_fields s1 key2 dir2 ifa2 lr2 country2 asn2 s2 h2
    have hstep1 :
        lookupA
          (⟨get_domain_from_r_dns
              (derivedRDns lr1 (get_address_to_lookup key1 dir1)),
            asn1, country1⟩ : Host) s1.hosts
          = some
            ⟨d1, false, is_loopback (get_address_to_lookup key1 dir1),
              is_local_connection (get_address_to_lookup key1 dir1) ifa1,
              tt1⟩ := by
      rw [hh1, lookupA_entryA_self, hnone, hd1]
      rfl
    have hpend2 :
        lookupA (get_address_to_lookup key2 dir2)
          s1.addresses_waiting_resolution = some d2 := by
      rw [hw1, lookupA_removeA_other (Ne.symm hane), hd2]
    refine ⟨⟨d1.add d2, false, is_loopback (get_address_to_lookup key1 dir1),
        is_local_connection (get_address_to_lookup key1 dir1) ifa1, tt1⟩,
      ?_, rfl, rfl, rfl⟩
    rw [hh2, ← hhost, lookupA_entryA_self, hstep1, hpend2]
    rfl

/-- Witness for C4 at concrete inputs: `1.2.3.4` (10 bytes/1 packet
pending) and `4.3.2.1` (20 bytes/2 packets pending) both resolve to host
`h`, leaving one non-favorite host entry with 30 bytes and 3 packets. -/
theorem reverse_dns_lookup_spec_witness :
    ∃ e,
      lookupA (⟨"h".toList, "AS1".toList, "IT".toList⟩ : Host) wS2.hosts
        = some e ∧
      e.data_info.transmitted_bytes = 10 + 20 ∧
      e.data_info.transmitted_packets = 1 + 2 ∧
      e.is_favorite = false :=
  reverse_dns_lookup_spec.2 wMergeState wKey1 wKey2
    TrafficDirection.Incoming TrafficDirection.Incoming [] []
    (some "h".toList) (some "h".toList)
    "IT".toList "AS1".toList "IT".toList "AS1".toList
    wS1 wS2 ⟨10, 1⟩ ⟨20, 2⟩
    (by decide) rfl (by decide) (by decide) rfl (by decide) (by decide)

lemma toDigitsCore_fuel_irrel (b : Nat) (hb : 2 ≤ b) :
    ∀ (n fuel fuel' : Nat) (ds : List Char), n < fuel → n < fuel' →
      Nat.toDigitsCore b fuel n ds = Nat.toDigitsCore b fuel' n ds := by
  intro n
  induction n using Nat.strong_induction_on with
  | _ n ih =>
    intro fuel fuel' ds hf hf'
    cases fuel with
    | zero => omega
    | succ f =>
      cases fuel' with
      | zero => omega
      | succ f' =>
        simp only [Nat.toDigitsCore]
        by_cases h : n / b = 0
        · simp [h]
        · have hn0 : 0 < n := Nat.pos_of_ne_zero (fun h0 => h (by simp [h0]))
          have hdiv : n / b < n := Nat.div_lt_self hn0 (by omega)
          simp only [h, if_neg, ite_false]
          exact ih (n / b) hdiv f f' _
            (Nat.lt_of_lt_of_le hdiv (Nat.lt_succ_iff.mp hf))
            (Nat.lt_of_lt_of_le hdiv (Nat.lt_succ_iff.mp hf'))

lemma toDigitsCore_acc (b : Nat) (hb : 2 ≤ b) :
    ∀ (n fuel : Nat) (ds : List Char), n < fuel →
      Nat.toDigitsCore b fuel n ds = Nat.toDigitsCore b fuel n [] ++ ds := by
  intro n
  induction n using Nat.strong_induction_on with
  | _ n ih =>
    intro fuel ds hf
    cases fuel with
    | zero => omega
    | succ f =>
      simp only [Nat.toDigitsCore]
      by_cases h : n / b = 0
      · simp [h]
      · have hn0 : 0 < n := Nat.pos_of_ne_zero (fun h0 => h (by simp [h0]))
        have hdiv : n / b < n := Nat.div_lt_self hn0 (by omega)
        have hlt : n / b < f := Nat.lt_of_lt_of_le hdiv (Nat.lt_succ_iff.mp hf)
        simp only [h, if_neg, ite_false]
        rw [ih (n / b) hdiv f _ hlt, ih (n / b) hdiv f [Nat.digitChar (n % b)] hlt]
        simp

lemma toDigits_step (b : Nat) (hb : 2 ≤ b) (n : Nat) (hn : b ≤ n) :
    Nat.toDigits b n
      = Nat.toDigits b (n / b) ++ [Nat.digitChar (n % b)] := by
  have h : n / b ≠ 0 := by
    intro h0
    rw [Nat.div_eq_zero_iff (by omega)] at h0
    omega
  have hdiv : n / b < n := Nat.div_lt_self (by omega) (by omega)
  have h1 : Nat.toDigits b n
      = Nat.toDigitsCore b n (n / b) [Nat.digitChar (n % b)] := by
    simp only [Nat.toDigits, Nat.toDigitsCore, h, if_neg, ite_false]
  rw [h1, toDigitsCore_acc b hb (n / b) n _ hdiv,
    toDigitsCore_fuel_irrel b hb (n / b) n (n / b + 1) [] hdiv
      (Nat.lt_succ_self _)]
  rfl

lemma toDigits_lt (b : Nat) (hb : 2 ≤ b) (n : Nat) (hn : n < b) :
    Nat.toDigits b n = [Nat.digitChar n] := by
  simp [Nat.toDigits, Nat.toDigitsCore, Nat.div_eq_of_lt hn,
    Nat.mod_eq_of_lt hn]

lemma toDigits_ne_nil (b : Nat) (hb : 2 ≤ b) (n : Nat) :
    Nat.toDigits b n ≠ [] := by
  by_cases h : n < b
  · rw [toDigits_lt b hb n h]
    simp
  · rw [toDigits_step b hb n (by omega)]
    simp

lemma toDigits_chars (b : Nat) (hb : 2 ≤ b) :
    ∀ (n : Nat), ∀ c ∈ Nat.toDigits b n, ∃ d, d < b ∧ c = Nat.digitChar d := by
  intro n
  induction n using Nat.strong_induction_on with
  | _ n ih =>
    intro c hc
    by_cases h : n < b
    · rw [toDigits_lt b hb n h] at hc
      simp only [List.mem_singleton] at hc
      exact ⟨n, h, hc⟩
    · rw [toDigits_step b hb n (by omega)] at hc
      rcases List.mem_append.1 hc with h1 | h1
      · exact ih (n / b) (Nat.div_lt_self (by omega) (by omega)) c h1
      · simp only [List.mem_singleton] at h1
        exact ⟨n % b, Nat.mod_lt _ (by omega), h1⟩

lemma decValue_cons (c : Char) (cs : RStr) :
    decValue (c :: cs) = decValueAux (c :: cs) 0 := rfl

lemma hexValue_cons (c : Char) (cs : RStr) :
    hexValue (c :: cs) = hexValueAux (c :: cs) 0 := rfl

lemma decValueAux_append (c : Char) (d : Nat) (hd : decDigit c = some d) :
    ∀ (s : RStr) (acc v : Nat), decValueAux s acc = some v →
      decValueAux (s ++ [c]) acc = some (10 * v + d) := by
  intro s
  induction s with
  | nil =>
    intro acc v h
    simp only [decValueAux, Option.some_inj] at h
    subst h
    simp [decValueAux, hd]
  | cons e es ih =>
    intro acc v h
    rw [List.cons_append]
    simp only [decValueAux] at h ⊢
    cases he : decDigit e with
    | none => rw [he] at h; simp at h
    | some d2 => rw [he] at h; exact ih _ v h

lemma hexValueAux_append (c : Char) (d : Nat) (hd : hexDigit c = some d) :
    ∀ (s : RStr) (acc v : Nat), hexValueAux s acc = some v →
      hexValueAux (s ++ [c]) acc = some (16 * v + d) := by
  intro s
  induction s with
  | nil =>
    intro acc v h
    simp only [hexValueAux, Option.some_inj] at h
    subst h
    simp [hexValueAux, hd]
  | cons e es ih =>
    intro acc v h
    rw [List.cons_append]
    simp only [hexValueAux] at h ⊢
    cases he : hexDigit e with
    | none => rw [he] at h; simp at h
    | some d2 => rw [he] at h; exact ih _ v h

lemma decDigit_digitChar : ∀ d : Fin 10,
    decDigit (Nat.digitChar d.val) = some d.val := by decide

lemma hexDigit_digitChar : ∀ d : Fin 16,
    hexDigit (Nat.digitChar d.val) = some d.val := by decide

lemma digitChar_not_special : ∀ d : Fin 16,
    Nat.digitChar d.val ≠ '.' ∧ Nat.digitChar d.val ≠ ':'
      ∧ Nat.digitChar d.val ≠ '+' := by decide

lemma digitChar_ne_zero : ∀ d : Fin 10,
    1 ≤ d.val → Nat.digitChar d.val ≠ '0' := by decide

lemma decValue_toDigits : ∀ n : Nat, decValue (Nat.toDigits 10 n) = some n := by
  intro n
  induction n using Nat.strong_induction_on with
  | _ n ih =>
    by_cases h : n < 10
    · rw [toDigits_lt 10 (by omega) n h, decValue_cons]
      have hd : decDigit (Nat.digitChar n) = some n := decDigit_digitChar ⟨n, h⟩
      simp [decValueAux, hd]
    · rw [toDigits_step 10 (by omega) n (by omega)]
      obtain ⟨y, ys, hy⟩ :=
        List.exists_cons_of_ne_nil (toDigits_ne_nil 10 (by omega) (n / 10))
      rw [hy]
      have hmod : decDigit (Nat.digitChar (n % 10)) = some (n % 10) :=
        decDigit_digitChar ⟨n % 10, Nat.mod_lt _ (by omega)⟩
      have hih : decValueAux (y :: ys) 0 = some (n / 10) := by
        have h2 := ih (n / 10) (Nat.div_lt_self (by omega) (by omega))
        rw [hy, decValue_cons] at h2
        exact h2
      have h3 := decValueAux_append _ _ hmod (y :: ys) 0 (n / 10) hih
      show decValueAux ((y :: ys) ++ [Nat.digitChar (n % 10)]) 0 = some n
      rw [h3]
      congr 1
      omega

lemma hexValue_toDigits : ∀ n : Nat, hexValue (Nat.toDigits 16 n) = some n := by
  intro n
  induction n using Nat.strong_induction_on with
  | _ n ih =>
    by_cases h : n < 16
    · rw [toDigits_lt 16 (by omega) n h, hexValue_cons]
      have hd : hexDigit (Nat.digitChar n) = some n := hexDigit_digitChar ⟨n, h⟩
      simp [hexValueAux, hd]
    · rw [toDigits_step 16 (by omega) n (by omega)]
      obtain ⟨y, ys, hy⟩ :=
        List.exists_cons_of_ne_nil (toDigits_ne_nil 16 (by omega) (n / 16))
      rw [hy]
      have hmod : hexDigit (Nat.digitChar (n % 16)) = some (n % 16) :=
        hexDigit_digitChar ⟨n % 16, Nat.mod_lt _ (by omega)⟩
      have hih : hexValueAux (y :: ys) 0 = some (n / 16) := by
        have h2 := ih (n / 16) (Nat.div_lt_self (by omega) (by omega))
        rw [hy, hexValue_cons] at h2
        exact h2
      have h3 := hexValueAux_append _ _ hmod (y :: ys) 0 (n / 16) hih
      show hexValueAux ((y :: ys) ++ [Nat.digitChar (n % 16)]) 0 = some n
      rw [h3]
      congr 1
      omega

lemma natToDec_chars (n : Nat) :
    ∀ c ∈ natToDec n, c ≠ '.' ∧ c ≠ ':' ∧ c ≠ '+' := by
  intro c hc
  obtain ⟨d, hd, hcd⟩ := toDigits_chars 10 (by omega) n c hc
  subst hcd
  exact digitChar_not_special ⟨d, by omega⟩

lemma natToHex_chars (n : Nat) :
    ∀ c ∈ natToHex n, c ≠ '.' ∧ c ≠ ':' ∧ c ≠ '+' := by
  intro c hc
  obtain ⟨d, hd, hcd⟩ := toDigits_chars 16 (by omega) n c hc
  subst hcd
  exact digitChar_not_special ⟨d, hd⟩

lemma natToDec_ne_nil (n : Nat) : natToDec n ≠ [] :=
  toDigits_ne_nil 10 (by omega) n

lemma natToHex_ne_nil (n : Nat) : natToHex n ≠ [] :=
  toDigits_ne_nil 16 (by omega) n

lemma natToDec_headI_ne_zero : ∀ n : Nat, 1 ≤ n →
    (natToDec n).headI ≠ '0' := by
  intro n
  induction n using Nat.strong_induction_on with
  | _ n ih =>
    intro hn
    by_cases h : n < 10
    · unfold natToDec
      rw [toDigits_lt 10 (by omega) n h]
      exact digitChar_ne_zero ⟨n, h⟩ hn
    · unfold natToDec
      rw [toDigits_step 10 (by omega) n (by omega)]
      obtain ⟨y, ys, hy⟩ :=
        List.exists_cons_of_ne_nil (toDigits_ne_nil 10 (by omega) (n / 10))
      rw [hy]
      have h2 := ih (n / 10) (Nat.div_lt_self (by omega) (by omega))
        (by omega : 1 ≤ n / 10)
      unfold natToDec at h2
      rw [hy] at h2
      simpa using h2

lemma parseU8_natToDec (n : Nat) (hn : n ≤ 255) :
    parseU8 (natToDec n) = some n := by
  obtain ⟨y, ys, hy⟩ := List.exists_cons_of_ne_nil (natToDec_ne_nil n)
  have hyp : y ≠ '+' :=
    (natToDec_chars n y (by rw [hy]; exact List.mem_cons_self _ _)).2.2
  have hdv : decValue (y :: ys) = some n := by
    have := decValue_toDigits n
    rwa [show Nat.toDigits 10 n = natToDec n from rfl, hy] at this
  simp only [parseU8, hy, if_neg hyp, hdv, hn, if_pos]

lemma parseIpv4Octet_natToDec (n : Nat) (hn : n ≤ 255) :
    parseIpv4Octet (natToDec n) = some n := by
  by_cases h0 : n = 0
  · subst h0
    decide
  · obtain ⟨y, ys, hy⟩ := List.exists_cons_of_ne_nil (natToDec_ne_nil n)
    have hyz : y ≠ '0' := by
      have := natToDec_headI_ne_zero n (by omega)
      rwa [hy] at this
    have hdv : decValue (y :: ys) = some n := by
      have := decValue_toDigits n
      rwa [show Nat.toDigits 10 n = natToDec n from rfl, hy] at this
    simp only [parseIpv4Octet, hy]
    rw [if_neg (by simp [hyz])]
    simp [hdv, hn]

lemma parseIpv6Group_natToHex (g : Nat) (hg : g < 65536) :
    parseIpv6Group (natToHex g) = some g := by
  have hne := natToHex_ne_nil g
  have hlen : (natToHex g).length ≤ 4 :=
    Nat.toDigitsCore_length 16 (by omega) (g + 1) g 4
      (by omega : g < 16 ^ 4) (by omega)
  have hhv : hexValue (natToHex g) = some g := hexValue_toDigits g
  simp only [parseIpv6Group]
  rw [if_neg (by simp [hne]; omega)]
  exact hhv

lemma splitChar_ne_nil (c : Char) (s : RStr) : splitChar c s ≠ [] := by
  cases s with
  | nil => simp [splitChar]
  | cons x xs =>
    simp only [splitChar]
    by_cases h : x = c <;> simp [h]

lemma headI_cons_tail {α : Type} [Inhabited α] (l : List α) (h : l ≠ []) :
    l.headI :: l.tail = l := by
  cases l with
  | nil => exact absurd rfl h
  | cons a t => rfl

lemma splitChar_not_mem (c : Char) (p : RStr) (h : c ∉ p) :
    splitChar c p = [p] := by
  induction p with
  | nil => rfl
  | cons x xs ih =>
    simp only [List.mem_cons, not_or] at h
    simp only [splitChar, ih h.2]
    rw [if_neg (Ne.symm h.1)]
    simp

lemma splitChar_append_sep (c : Char) (p rest : RStr) (h : c ∉ p) :
    splitChar c (p ++ c :: rest) = p :: splitChar c rest := by
  induction p with
  | nil => simp [splitChar]
  | cons x xs ih =>
    simp only [List.mem_cons, not_or] at h
    simp only [List.cons_append, splitChar, ih h.2]
    rw [if_neg (Ne.symm h.1)]
    simp [ih h.2]

lemma splitChar_joinChar (c : Char) :
    ∀ (parts : List RStr), parts ≠ [] → (∀ p ∈ parts, c ∉ p) →
      splitChar c (joinChar c parts) = parts := by
  intro parts
  induction parts with
  | nil => intro h; exact absurd rfl h
  | cons p ps ih =>
    intro _ hmem
    cases ps with
    | nil => simpa [joinChar] using splitChar_not_mem c p (hmem p (by simp))
    | cons q qs =>
      rw [show joinChar c (p :: q :: qs) = p ++ c :: joinChar c (q :: qs)
        from rfl]
      rw [splitChar_append_sep c p _ (hmem p (by simp))]
      rw [ih (by simp) (fun r hr => hmem r (by simp [hr]))]

lemma splitChar_join_append (c : Char) :
    ∀ (parts : List RStr) (rest : RStr), parts ≠ [] →
      (∀ p ∈ parts, c ∉ p) →
      splitChar c (joinChar c parts ++ c :: rest)
        = parts ++ splitChar c rest := by
  intro parts
  induction parts with
  | nil => intro rest h; exact absurd rfl h
  | cons p ps ih =>
    intro rest _ hmem
    cases ps with
    | nil =>
      rw [show joinChar c [p] = p from rfl,
        splitChar_append_sep c p rest (hmem p (by simp))]
      rfl
    | cons q qs =>
      rw [show joinChar c (p :: q :: qs) = p ++ c :: joinChar c (q :: qs)
        from rfl]
      rw [List.append_assoc, List.cons_append]
      rw [splitChar_append_sep c p _ (hmem p (by simp))]
      rw [ih rest (by simp) (fun r hr => hmem r (by simp [hr]))]
      rfl

lemma mem_splitChar_of_mem (c x : Char) (hne : x ≠ c) :
    ∀ (s : RStr), x ∈ s → ∃ g ∈ splitChar c s, x ∈ g := by
  intro s
  induction s with
  | nil => simp
  | cons y ys ih =>
    intro hx
    by_cases hyc : y = c
    · subst hyc
      have hxs : x ∈ ys := by
        rcases List.mem_cons.1 hx with h | h
        · exact absurd h hne
        · exact h
      obtain ⟨g, hg, hxg⟩ := ih hxs
      refine ⟨g, ?_, hxg⟩
      simp only [splitChar, if_pos rfl]
      exact List.mem_cons_of_mem _ hg
    · have hr := splitChar_ne_nil c ys
      rcases List.mem_cons.1 hx with h | h
      · subst h
        refine ⟨x :: (splitChar c ys).headI, ?_, by simp⟩
        simp [splitChar, hyc]
      · obtain ⟨g, hg, hxg⟩ := ih h
        rw [← headI_cons_tail (splitChar c ys) hr] at hg
        rcases List.mem_cons.1 hg with h2 | h2
        · subst h2
          refine ⟨y :: (splitChar c ys).headI, ?_,
            List.mem_cons_of_mem _ hxg⟩
          simp [splitChar, hyc]
        · refine ⟨g, ?_, hxg⟩
          simp only [splitChar, hyc, if_neg, ite_false]
          exact List.mem_cons_of_mem _ h2

lemma decValueAux_none (x : Char) (hx : decDigit x = none) :
    ∀ (s : RStr), x ∈ s → ∀ acc, decValueAux s acc = none := by
  intro s
  induction s with
  | nil => simp
  | cons e es ih =>
    intro hmem acc
    simp only [decValueAux]
    cases he : decDigit e with
    | none => rfl
    | some d =>
      rcases List.mem_cons.1 hmem with h | h
      · subst h; rw [hx] at he; cases he
      · exact ih h _

lemma parseIpv4Octet_none_of_colon (g : RStr) (h : ':' ∈ g) :
    parseIpv4Octet g = none := by
  cases g with
  | nil => simp at h
  | cons c cs =>
    simp only [parseIpv4Octet]
    by_cases h0 : c = '0' ∧ cs ≠ []
    · rw [if_pos h0]
    · rw [if_neg h0]
      have hd : decValue (c :: cs) = none := by
        rw [decValue_cons]
        exact decValueAux_none ':' (by decide) _ h 0
      rw [hd]

lemma parseIpv4_none_of_colon (s : RStr) (h : ':' ∈ s) :
    parseIpv4 s = none := by
  obtain ⟨g, hg, hcg⟩ := mem_splitChar_of_mem '.' ':' (by decide) s h
  unfold parseIpv4
  rcases hsp : splitChar '.' s with _ | ⟨g0, _ | ⟨g1, _ | ⟨g2, _ | ⟨g3,
    _ | ⟨g4, gs⟩⟩⟩⟩⟩ <;> try rfl
  rw [hsp] at hg
  have hkn := parseIpv4Octet_none_of_colon g hcg
  simp only [List.mem_cons, List.not_mem_nil, or_false] at hg
  rcases hg with hg | hg | hg | hg <;> rw [hg] at hkn <;>
    cases h0 : parseIpv4Octet g0 <;> cases h1 : parseIpv4Octet g1 <;>
    cases h2 : parseIpv4Octet g2 <;> cases h3 : parseIpv4Octet g3 <;>
    simp_all

lemma dot_mem_ipv4ToRStr (x : Ipv4) : '.' ∈ ipv4ToRStr x := by
  simp [ipv4ToRStr, joinChar]

lemma colon_not_mem_ipv4ToRStr (x : Ipv4) : ':' ∉ ipv4ToRStr x := by
  intro h
  simp only [ipv4ToRStr, joinChar, List.mem_append, List.mem_cons] at h
  rcases h with h | h | h | h | h | h | h <;>
    first
      | exact (natToDec_chars _ _ h).2.1 rfl
      | exact absurd h (by decide)

lemma ipv4ToRStr_ne_nil (x : Ipv4) : ipv4ToRStr x ≠ [] := by
  simp [ipv4ToRStr, joinChar, natToDec_ne_nil]

lemma parseIpv4_ipv4ToRStr (x : Ipv4) (h0 : x.o0 ≤ 255) (h1 : x.o1 ≤ 255)
    (h2 : x.o2 ≤ 255) (h3 : x.o3 ≤ 255) :
    parseIpv4 (ipv4ToRStr x) = some x := by
  unfold parseIpv4 ipv4ToRStr
  rw [splitChar_joinChar '.' _ (by simp)
    (by
      intro p hp hc
      simp only [List.mem_cons, List.not_mem_nil, or_false] at hp
      rcases hp with hp | hp | hp | hp <;> subst hp <;>
        exact (natToDec_chars _ _ hc).1 rfl)]
  simp [parseIpv4Octet_natToDec _ h0, parseIpv4Octet_natToDec _ h1,
    parseIpv4Octet_natToDec _ h2, parseIpv4Octet_natToDec _ h3]

lemma dot_not_mem_natToHex (g : Nat) : '.' ∉ natToHex g :=
  fun h => (natToHex_chars g _ h).1 rfl

lemma colon_not_mem_natToHex (g : Nat) : ':' ∉ natToHex g :=
  fun h => (natToHex_chars g _ h).2.1 rfl

lemma splitChar_cons_sep (c : Char) (rest : RStr) :
    splitChar c (c :: rest) = [] :: splitChar c rest := by
  simp [splitChar]

lemma parseIpv6Groups_map (gs : List Nat) (h : ∀ g ∈ gs, g < 65536) :
    parseIpv6Groups (gs.map natToHex) = some gs := by
  induction gs with
  | nil => rfl
  | cons g rest ih =>
    simp only [List.map_cons, parseIpv6Groups]
    rw [parseIpv6Group_natToHex g (h g (by simp)),
      ih (fun x hx => h x (by simp [hx]))]

lemma parseIpv6GroupsTail_map (gs : List Nat) (h : ∀ g ∈ gs, g < 65536) :
    parseIpv6GroupsTail (gs.map natToHex) = some gs := by
  induction gs with
  | nil => rfl
  | cons g rest ih =>
    cases rest with
    | nil =>
      simp only [List.map_cons, List.map_nil, parseIpv6GroupsTail]
      rw [if_neg (dot_not_mem_natToHex g),
        parseIpv6Group_natToHex g (h g (by simp))]
    | cons g2 rest2 =>
      simp only [List.map_cons, parseIpv6GroupsTail] at ih ⊢
      rw [parseIpv6Group_natToHex g (h g (by simp)),
        ih (fun x hx => h x (by simp [hx]))]

lemma foldl_best_mem :
    ∀ (l : List (Nat × Nat)) (init : Nat × Nat),
      l.foldl (fun best c => if best.2 < c.2 then c else best) init = init
        ∨ l.foldl (fun best c => if best.2 < c.2 then c else best) init ∈ l := by
  intro l
  induction l with
  | nil => intro init; left; rfl
  | cons a t ih =>
    intro init
    rcases ih (if init.2 < a.2 then a else init) with h | h
    · rw [List.foldl_cons, h]
      by_cases hc : init.2 < a.2
      · right; simp [hc]
      · left; simp [hc]
    · right
      rw [List.foldl_cons]
      exact List.mem_cons_of_mem _ h

lemma longestZeroRun_spec (gs : List Nat) :
    longestZeroRun gs = (0, 0) ∨
      ((longestZeroRun gs).1 < gs.length ∧
        zeroRunAt gs (longestZeroRun gs).1 = (longestZeroRun gs).2) := by
  unfold longestZeroRun
  rcases foldl_best_mem
      ((List.range gs.length).map (fun i => (i, zeroRunAt gs i))) (0, 0)
    with h | h
  · left; exact h
  · right
    obtain ⟨i, hi, hieq⟩ := List.mem_map.1 h
    rw [← hieq]
    exact ⟨List.mem_range.1 hi, rfl⟩

lemma zeroRunAt_le (gs : List Nat) (i : Nat) (hi : i ≤ gs.length) :
    i + zeroRunAt gs i ≤ gs.length := by
  unfold zeroRunAt
  have h1 : (List.takeWhile (fun g => g == 0) (gs.drop i)).length
      ≤ (gs.drop i).length := (List.takeWhile_sublist _).length_le
  have h2 := List.length_drop i gs
  omega

lemma zeroRun_decomp (gs : List Nat) (i : Nat) (hi : i ≤ gs.length) :
    gs = gs.take i ++ List.replicate (zeroRunAt gs i) 0
      ++ gs.drop (i + zeroRunAt gs i) := by
  have h1 : List.takeWhile (fun g => g == 0) (gs.drop i)
      = List.replicate (zeroRunAt gs i) 0 := by
    rw [List.eq_replicate]
    refine ⟨rfl, ?_⟩
    intro b hb
    have := List.mem_takeWhile_imp hb
    simpa using this
  have h2 : gs.drop (i + zeroRunAt gs i)
      = List.dropWhile (fun g => g == 0) (gs.drop i) := by
    rw [← List.drop_drop]
    conv_lhs =>
      rw [← List.takeWhile_append_dropWhile (p := fun g => g == 0)
        (l := gs.drop i)]
    rw [show zeroRunAt gs i
        = (List.takeWhile (fun g => g == 0) (gs.drop i)).length from rfl]
    exact List.drop_left _ _
  conv_lhs => rw [← List.take_append_drop i gs]
  rw [← List.takeWhile_append_dropWhile (p := fun g => g == 0)
    (l := gs.drop i), h1, h2, List.append_assoc]

lemma splitAtCompression_no_empty (parts : List RStr)
    (h : ([] : RStr) ∉ parts) : splitAtCompression parts = some none := by
  simp [splitAtCompression, h]

lemma splitAtCompression_bare :
    splitAtCompression [[], [], []] = some (some ([], [])) := by decide

lemma splitAtCompression_leading (rest : List RStr) (h1 : rest ≠ [])
    (h2 : ([] : RStr) ∉ rest) :
    splitAtCompression ([] :: [] :: rest) = some (some ([], rest)) := by
  have hr3 : ([] :: [] :: rest : List RStr) ≠ [[], [], []] := by
    intro heq
    have : rest = [[]] := by simpa using heq
    rw [this] at h2
    simp at h2
  unfold splitAtCompression
  rw [if_neg (by simp), if_neg hr3, if_pos (by simp)]
  simp [h1, h2]

lemma idxOfNil_append (pre post : List RStr) (h : ([] : RStr) ∉ pre) :
    idxOfNil (pre ++ [] :: post) = pre.length := by
  induction pre with
  | nil => simp [idxOfNil]
  | cons p ps ih =>
    simp only [List.mem_cons, not_or] at h
    rw [List.cons_append]
    simp only [idxOfNil, if_neg (Ne.symm h.1), ih h.2, List.length_cons]

lemma drop_len_succ_append (l : List RStr) (x : RStr) (r : List RStr) :
    (l ++ x :: r).drop (l.length + 1) = r := by
  induction l with
  | nil => simp
  | cons a t ih => simpa using ih

lemma splitAtCompression_notleading (pre : List RStr) (c : Char) (cs : RStr)
    (mid : List RStr) :
    ¬ (2 ≤ ((c :: cs) :: pre ++ mid).length
      ∧ ((c :: cs) :: pre ++ mid).headI = []
      ∧ ((c :: cs) :: pre ++ mid).tail.headI = []) := by
  intro h
  simp at h

lemma splitAtCompression_trailing (pre : List RStr) (h1 : pre ≠ [])
    (h2 : ([] : RStr) ∉ pre) :
    splitAtCompression (pre ++ [[], []]) = some (some (pre, [])) := by
  obtain ⟨p, ps, rfl⟩ := List.exists_cons_of_ne_nil h1
  obtain ⟨c, cs, rfl⟩ : ∃ c cs, p = c :: cs := by
    cases p with
    | nil => exact absurd (List.mem_cons_self _ _) h2
    | cons c cs => exact ⟨c, cs, rfl⟩
  have hidx : idxOfNil (((c :: cs) :: ps) ++ [[], []])
      = ((c :: cs) :: ps).length := by
    have := idxOfNil_append ((c :: cs) :: ps) [[]] h2
    simpa using this
  have htake : (((c :: cs) :: ps) ++ [[], []]).take ((c :: cs) :: ps).length
      = (c :: cs) :: ps := List.take_left _ _
  have hdrop : (((c :: cs) :: ps) ++ [[], []]).drop
      (((c :: cs) :: ps).length + 1) = [[]] := by
    simpa using drop_len_succ_append ((c :: cs) :: ps) [] [[]]
  simp only [splitAtCompression]
  rw [if_neg (by simp), if_neg (by simp),
    if_neg (splitAtCompression_notleading ps c cs [[], []]),
    hidx, htake, hdrop, if_pos ⟨by simp, h2⟩, if_pos rfl]

lemma splitAtCompression_middle (pre post : List RStr) (h1 : pre ≠ [])
    (h2 : ([] : RStr) ∉ pre) (h3 : post ≠ []) (h4 : ([] : RStr) ∉ post) :
    splitAtCompression (pre ++ [] :: post) = some (some (pre, post)) := by
  obtain ⟨p, ps, rfl⟩ := List.exists_cons_of_ne_nil h1
  obtain ⟨c, cs, rfl⟩ : ∃ c cs, p = c :: cs := by
    cases p with
    | nil => exact absurd (List.mem_cons_self _ _) h2
    | cons c cs => exact ⟨c, cs, rfl⟩
  have hidx : idxOfNil (((c :: cs) :: ps) ++ [] :: post)
      = ((c :: cs) :: ps).length := idxOfNil_append _ _ h2
  have htake : (((c :: cs) :: ps) ++ [] :: post).take ((c :: cs) :: ps).length
      = (c :: cs) :: ps := List.take_left _ _
  have hdrop : (((c :: cs) :: ps) ++ [] :: post).drop
      (((c :: cs) :: ps).length + 1) = post :=
    drop_len_succ_append ((c :: cs) :: ps) [] post
  have hpost_ne : post ≠ [[]] := by
    intro heq
    rw [heq] at h4
    simp at h4
  simp only [splitAtCompression]
  rw [if_neg (by simp), if_neg (by simp),
    if_neg (splitAtCompression_notleading ps c cs ([] :: post)),
    hidx, htake, hdrop, if_pos ⟨by simp, h2⟩, if_neg hpost_ne,
    if_pos ⟨h3, h4⟩]

lemma no_nil_in_hexmap (l : List Nat) : ([] : RStr) ∉ l.map natToHex := by
  intro h
  obtain ⟨g, hg, hgeq⟩ := List.mem_map.1 h
  exact natToHex_ne_nil g hgeq

lemma no_colon_in_hexmap (l : List Nat) :
    ∀ p ∈ l.map natToHex, ':' ∉ p := by
  intro p hp
  obtain ⟨g, hg, hgeq⟩ := List.mem_map.1 hp
  rw [← hgeq]
  exact colon_not_mem_natToHex g

lemma parseIpv6_ipv6ToRStr (gs : List Nat) (hlen : gs.length = 8)
    (hb : ∀ g ∈ gs, g < 65536) :
    parseIpv6 (ipv6ToRStr gs) = some gs := by
  by_cases hmap : gs.length = 8 ∧ gs.take 6 = [0, 0, 0, 0, 0, 65535]
  · -- the IPv4-mapped special form
    rcases gs with _ | ⟨g0, _ | ⟨g1, _ | ⟨g2, _ | ⟨g3, _ | ⟨g4, _ | ⟨g5,
      _ | ⟨g6, _ | ⟨g7, _ | ⟨g8, rest⟩⟩⟩⟩⟩⟩⟩⟩⟩ <;> simp only [List.length]
        at hlen <;> try omega
    obtain ⟨h0, h1, h2, h3, h4, h5⟩ :
        g0 = 0 ∧ g1 = 0 ∧ g2 = 0 ∧ g3 = 0 ∧ g4 = 0 ∧ g5 = 65535 := by
      have := hmap.2
      simp at this
      tauto
    subst h0; subst h1; subst h2; subst h3; subst h4; subst h5
    have hg6 : g6 < 65536 := hb g6 (by simp)
    have hg7 : g7 < 65536 := hb g7 (by simp)
    rw [show ipv6ToRStr [0, 0, 0, 0, 0, 65535, g6, g7]
        = "::ffff:".toList
          ++ ipv4ToRStr ⟨g6 / 256, g6 % 256, g7 / 256, g7 % 256⟩ from by
      unfold ipv6ToRStr
      rw [if_pos (by simp)]
      rfl]
    have hsplit : splitChar ':' ("::ffff:".toList
        ++ ipv4ToRStr ⟨g6 / 256, g6 % 256, g7 / 256, g7 % 256⟩)
        = [[], [], ['f', 'f', 'f', 'f'],
            ipv4ToRStr ⟨g6 / 256, g6 % 256, g7 / 256, g7 % 256⟩] := by
      show splitChar ':' (':' :: ':' :: (['f', 'f', 'f', 'f']
        ++ ':' :: ipv4ToRStr ⟨g6 / 256, g6 % 256, g7 / 256, g7 % 256⟩)) = _
      rw [splitChar_cons_sep, splitChar_cons_sep,
        splitChar_append_sep ':' ['f', 'f', 'f', 'f'] _ (by decide),
        splitChar_not_mem ':' _ (colon_not_mem_ipv4ToRStr _)]
    have htail : parseIpv6GroupsTail [['f', 'f', 'f', 'f'],
        ipv4ToRStr ⟨g6 / 256, g6 % 256, g7 / 256, g7 % 256⟩]
        = some [65535, g6, g7] := by
      simp only [parseIpv6GroupsTail]
      rw [show parseIpv6Group ['f', 'f', 'f', 'f'] = some 65535 from by
        decide]
      rw [if_pos (dot_mem_ipv4ToRStr _), parseIpv4_ipv4ToRStr _
        (by show g6 / 256 ≤ 255; omega) (by show g6 % 256 ≤ 255; omega)
        (by show g7 / 256 ≤ 255; omega) (by show g7 % 256 ≤ 255; omega)]
      have e6 : g6 / 256 * 256 + g6 % 256 = g6 := by omega
      have e7 : g7 / 256 * 256 + g7 % 256 = g7 := by omega
      simp [e6, e7]
    simp only [parseIpv6]
    rw [hsplit, splitAtCompression_leading _ (by simp)
      (by simp [Ne.symm (ipv4ToRStr_ne_nil _)])]
    dsimp only
    rw [htail]
    rfl
  · -- no mapped form: hex groups, possibly compressed
    have hprint : ipv6ToRStr gs
        = if 1 < (longestZeroRun gs).2 then
            joinChar ':' ((gs.take (longestZeroRun gs).1).map natToHex)
              ++ "::".toList
              ++ joinChar ':' ((gs.drop ((longestZeroRun gs).1
                  + (longestZeroRun gs).2)).map natToHex)
          else joinChar ':' (gs.map natToHex) := by
      unfold ipv6ToRStr
      rw [if_neg hmap]
    by_cases hrun : 1 < (longestZeroRun gs).2
    · -- compressed form
      rw [hprint, if_pos hrun]
      have hspec := longestZeroRun_spec gs
      rcases hspec with hzero | ⟨hlt, hzr⟩
      · rw [hzero] at hrun; simp at hrun
      have hil : (longestZeroRun gs).1 + (longestZeroRun gs).2 ≤ 8 := by
        have := zeroRunAt_le gs (longestZeroRun gs).1 (by omega)
        omega
      have hdecomp : gs = gs.take (longestZeroRun gs).1
          ++ List.replicate (longestZeroRun gs).2 0
          ++ gs.drop ((longestZeroRun gs).1 + (longestZeroRun gs).2) := by
        have := zeroRun_decomp gs (longestZeroRun gs).1 (by omega)
        rw [hzr] at this
        exact this
      have htakelen : (gs.take (longestZeroRun gs).1).length
          = (longestZeroRun gs).1 := by
        rw [List.length_take]
        omega
      have hdroplen : (gs.drop ((longestZeroRun gs).1
          + (longestZeroRun gs).2)).length
          = 8 - ((longestZeroRun gs).1 + (longestZeroRun gs).2) := by
        rw [List.length_drop, hlen]
      have hbtake : ∀ g ∈ gs.take (longestZeroRun gs).1, g < 65536 :=
        fun g hg => hb g (List.take_subset _ _ hg)
      have hbdrop : ∀ g ∈ gs.drop ((longestZeroRun gs).1
          + (longestZeroRun gs).2), g < 65536 :=
        fun g hg => hb g (List.drop_subset _ _ hg)
      by_cases hi0 : (longestZeroRun gs).1 = 0
      · have htake0 : gs.take (longestZeroRun gs).1 = [] := by
          rw [hi0]; rfl
        by_cases hend : (longestZeroRun gs).1 + (longestZeroRun gs).2 = 8
        · -- the whole address is zero: prints as a bare double colon
          have hdrop0 : gs.drop ((longestZeroRun gs).1
              + (longestZeroRun gs).2) = [] := by
            apply List.eq_nil_of_length_eq_zero
            omega
          rw [htake0, hdrop0]
          simp only [List.map_nil, joinChar]
          simp only [parseIpv6]
          rw [show splitChar ':' ([] ++ "::".toList ++ []) = [[], [], []]
            from by decide]
          rw [splitAtCompression_bare]
          simp only [parseIpv6Groups, parseIpv6GroupsTail]
          rw [if_pos (by simp)]
          rw [hdecomp]
          rw [htake0, hdrop0]
          simp only [List.append_nil, List.nil_append, Option.some_inj]
          have h8 : (longestZeroRun gs).2 = 8 := by omega
          rw [h8]
          rfl
        · -- leading compression
          have hdropne : (gs.drop ((longestZeroRun gs).1
              + (longestZeroRun gs).2)).map natToHex ≠ [] := by
            intro h
            rw [List.map_eq_nil] at h
            have := congrArg List.length h
            simp [hdroplen] at this
            omega
          rw [htake0]
          simp only [List.map_nil, joinChar, List.nil_append]
          show parseIpv6 (':' :: ':' :: joinChar ':'
            ((gs.drop ((longestZeroRun gs).1 + (longestZeroRun gs).2)).map
              natToHex)) = some gs
          simp only [parseIpv6]
          rw [splitChar_cons_sep, splitChar_cons_sep,
            splitChar_joinChar ':' _ hdropne (no_colon_in_hexmap _),
            splitAtCompression_leading _ hdropne (no_nil_in_hexmap _)]
          dsimp only
          rw [parseIpv6GroupsTail_map _ hbdrop]
          simp only [parseIpv6Groups]
          rw [if_pos (by simp [hdroplen]; omega)]
          simp only [Option.some_inj, List.nil_append, List.length_nil,
            Nat.zero_add, hdroplen]
          have h88 : 8 - (8 - ((longestZeroRun gs).1 + (longestZeroRun gs).2))
              = (longestZeroRun gs).2 := by omega
          rw [h88]
          conv_rhs => rw [hdecomp, htake0]
          simp
      · have htakene : (gs.take (longestZeroRun gs).1).map natToHex ≠ [] := by
          intro h
          rw [List.map_eq_nil] at h
          have := congrArg List.length h
          simp [htakelen] at this
          omega
        by_cases hend : (longestZeroRun gs).1 + (longestZeroRun gs).2 = 8
        · -- trailing compression
          have hdrop0 : gs.drop ((longestZeroRun gs).1
              + (longestZeroRun gs).2) = [] := by
            apply List.eq_nil_of_length_eq_zero
            omega
          rw [hdrop0]
          simp only [List.map_nil, joinChar, List.append_nil]
          show parseIpv6 (joinChar ':'
            ((gs.take (longestZeroRun gs).1).map natToHex)
            ++ ':' :: [':']) = some gs
          simp only [parseIpv6]
          rw [splitChar_join_append ':' _ _ htakene (no_colon_in_hexmap _)]
          rw [show splitChar ':' [':'] = [[], []] from by decide]
          rw [splitAtCompression_trailing _ htakene (no_nil_in_hexmap _)]
          dsimp only
          rw [parseIpv6Groups_map _ hbtake]
          simp only [parseIpv6GroupsTail]
          rw [if_pos (by simp [htakelen]; omega)]
          simp only [Option.some_inj, List.append_nil, List.length_nil,
            Nat.add_zero, htakelen]
          have h88 : 8 - (longestZeroRun gs).1 = (longestZeroRun gs).2 := by
            omega
          rw [h88]
          conv_rhs => rw [hdecomp, hdrop0]
          simp
        · -- middle compression
          have hdropne : (gs.drop ((longestZeroRun gs).1
              + (longestZeroRun gs).2)).map natToHex ≠ [] := by
            intro h
            rw [List.map_eq_nil] at h
            have := congrArg List.length h
            simp [hdroplen] at this
            omega
          rw [List.append_assoc]
          show parseIpv6 (joinChar ':'
            ((gs.take (longestZeroRun gs).1).map natToHex)
            ++ ':' :: (':' :: joinChar ':'
              ((gs.drop ((longestZeroRun gs).1 + (longestZeroRun gs).2)).map
                natToHex))) = some gs
          simp only [parseIpv6]
          rw [splitChar_join_append ':' _ _ htakene (no_colon_in_hexmap _),
            splitChar_cons_sep,
            splitChar_joinChar ':' _ hdropne (no_colon_in_hexmap _)]
          rw [show ((gs.take (longestZeroRun gs).1).map natToHex)
              ++ [] :: ((gs.drop ((longestZeroRun gs).1
                + (longestZeroRun gs).2)).map natToHex)
              = ((gs.take (longestZeroRun gs).1).map natToHex)
              ++ ([] : RStr) :: ((gs.drop ((longestZeroRun gs).1
                + (longestZeroRun gs).2)).map natToHex) from rfl]
          rw [splitAtCompression_middle _ _ htakene (no_nil_in_hexmap _)
            hdropne (no_nil_in_hexmap _)]
          dsimp only
          rw [parseIpv6Groups_map _ hbtake, parseIpv6GroupsTail_map _ hbdrop]
          try dsimp only
          rw [if_pos (by simp [htakelen, hdroplen]; omega)]
          simp only [Option.some_inj, htakelen, hdroplen]
          have h88 : 8 - ((longestZeroRun gs).1
              + (8 - ((longestZeroRun gs).1 + (longestZeroRun gs).2)))
              = (longestZeroRun gs).2 := by omega
          rw [h88]
          conv_rhs => rw [hdecomp]
    · -- full eight-group form
      rw [hprint, if_neg hrun]
      have hne : gs.map natToHex ≠ [] := by
        intro h
        rw [List.map_eq_nil] at h
        rw [h] at hlen
        simp at hlen
      simp only [parseIpv6]
      rw [splitChar_joinChar ':' _ hne (no_colon_in_hexmap _),
        splitAtCompression_no_empty _ (no_nil_in_hexmap _)]
      dsimp only
      rw [parseIpv6GroupsTail_map _ hb]
      try dsimp only
      rw [if_pos (by rw [hlen])]

lemma splitChar_ipv4ToRStr (x : Ipv4) :
    splitChar '.' (ipv4ToRStr x)
      = [natToDec x.o0, natToDec x.o1, natToDec x.o2, natToDec x.o3] := by
  unfold ipv4ToRStr
  rw [splitChar_joinChar '.' _ (by simp) (by
    intro p hp hc
    simp only [List.mem_cons, List.not_mem_nil, or_false] at hp
    rcases hp with hp | hp | hp | hp <;> subst hp <;>
      exact (natToDec_chars _ _ hc).1 rfl)]

lemma colon_mem_ipv6ToRStr (gs : List Nat) (hlen : gs.length = 8) :
    ':' ∈ ipv6ToRStr gs := by
  unfold ipv6ToRStr
  by_cases hmap : gs.length = 8 ∧ gs.take 6 = [0, 0, 0, 0, 0, 65535]
  · rw [if_pos hmap]
    exact List.mem_append.2 (Or.inl (by decide))
  · rw [if_neg hmap]
    by_cases hrun : 1 < (longestZeroRun gs).2
    · rw [if_pos hrun]
      refine List.mem_append.2 (Or.inl (List.mem_append.2 (Or.inr ?_)))
      decide
    · rw [if_neg hrun]
      rcases gs with _ | ⟨g0, _ | ⟨g1, rest⟩⟩ <;> simp only [List.length]
        at hlen <;> try omega
      rw [show (g0 :: g1 :: rest).map natToHex
        = natToHex g0 :: (g1 :: rest).map natToHex from rfl]
      rw [show joinChar ':' (natToHex g0 :: (g1 :: rest).map natToHex)
        = natToHex g0 ++ ':' :: joinChar ':' ((g1 :: rest).map natToHex)
        from rfl]
      exact List.mem_append.2 (Or.inr (List.mem_cons_self _ _))

lemma parseIpAddr_toRStr (a : IpAddr) (hwf : a.wf) :
    parseIpAddr (ipAddrToRStr a) = some a := by
  cases a with
  | v4 x =>
    obtain ⟨h0, h1, h2, h3⟩ := hwf
    simp only [ipAddrToRStr, parseIpAddr]
    rw [parseIpv4_ipv4ToRStr x (by omega) (by omega) (by omega) (by omega)]
  | v6 gs =>
    obtain ⟨hlen, hb⟩ := hwf
    simp only [ipAddrToRStr, parseIpAddr]
    rw [parseIpv4_none_of_colon _ (colon_mem_ipv6ToRStr gs hlen),
      parseIpv6_ipv6ToRStr gs hlen hb]

lemma is_multicast_v4_print (x : Ipv4) (h0 : x.o0 ≤ 255) :
    is_multicast_address (ipv4ToRStr x)
      = some (decide (224 ≤ x.o0 ∧ x.o0 ≤ 239)) := by
  simp only [is_multicast_address]
  rw [if_neg (colon_not_mem_ipv4ToRStr x), splitChar_ipv4ToRStr x]
  show (match parseU8 (natToDec x.o0) with
    | some first_group => some (decide (224 ≤ first_group ∧ first_group ≤ 239))
    | none => none) = _
  rw [parseU8_natToDec x.o0 h0]

lemma is_multicast_v6_print (gs : List Nat) (hlen : gs.length = 8) :
    is_multicast_address (ipv6ToRStr gs)
      = some (decide ("ff".toList <+: ipv6ToRStr gs)) := by
  simp only [is_multicast_address]
  rw [if_pos (colon_mem_ipv6ToRStr gs hlen)]

lemma is_broadcast_eq_spec (address : RStr) (ifaceAddrs : List Address) :
    is_broadcast_address address ifaceAddrs
      = specIsBroadcast address ifaceAddrs := by
  unfold is_broadcast_address specIsBroadcast
  by_cases h : address = "255.255.255.255".toList
  · simp [h]
  · rw [if_neg h]
    have hd : decide (address = "255.255.255.255".toList) = false := by
      simpa using h
    rw [hd, Bool.false_or, Bool.eq_iff_iff]
    simp only [decide_eq_true_iff, List.any_eq_true, List.mem_map,
      decide_eq_true_eq]
    constructor
    · rintro ⟨a, ha, hfa⟩
      exact ⟨a, ha, hfa.symm⟩
    · rintro ⟨a, ha, hfa⟩
      exact ⟨a, ha, hfa.symm⟩

lemma is_multicast_print_eq_spec (a : IpAddr) (hwf : a.wf) :
    is_multicast_address (ipAddrToRStr a)
      = some (specIsMulticast (ipAddrToRStr a)) := by
  cases a with
  | v4 x =>
    obtain ⟨h0, h1, h2, h3⟩ := hwf
    rw [show ipAddrToRStr (.v4 x) = ipv4ToRStr x from rfl,
      is_multicast_v4_print x (by omega)]
    unfold specIsMulticast
    rw [parseIpv4_ipv4ToRStr x (by omega) (by omega) (by omega) (by omega)]
    have hc : decide (':' ∈ ipv4ToRStr x) = false := by
      simpa using colon_not_mem_ipv4ToRStr x
    rw [hc]
    simp
  | v6 gs =>
    obtain ⟨hlen, hb⟩ := hwf
    rw [show ipAddrToRStr (.v6 gs) = ipv6ToRStr gs from rfl,
      is_multicast_v6_print gs hlen]
    unfold specIsMulticast
    rw [parseIpv4_none_of_colon _ (colon_mem_ipv6ToRStr gs hlen)]
    have hc : decide (':' ∈ ipv6ToRStr gs) = true := by
      simpa using colon_mem_ipv6ToRStr gs hlen
    rw [hc]
    simp

lemma get_traffic_type_print_eq_spec (a : IpAddr) (hwf : a.wf)
    (ifaceAddrs : List Address) (direction : TrafficDirection) :
    get_traffic_type (ipAddrToRStr a) ifaceAddrs direction
      = some (specTrafficType (ipAddrToRStr a) ifaceAddrs direction) := by
  cases direction with
  | Incoming => simp [get_traffic_type, specTrafficType]
  | Outgoing =>
    unfold get_traffic_type specTrafficType
    rw [is_multicast_print_eq_spec a hwf]
    by_cases hmc : specIsMulticast (ipAddrToRStr a) <;>
      simp [hmc, is_broadcast_eq_spec, apply_ite]

/-- **C10.** On every address string that is the textual form of a parsed
IP address (the `Display` form of a well-formed `IpAddr`), the operations
whose Rust originals can panic are total: the address re-parses
successfully, `is_multicast_address`'s parse of the first dotted group
succeeds, `get_traffic_type` never reaches the modelled panic, and
`reverse_dns_lookup` returns a state whenever the address it looks up has
this textual form. -/
theorem no_panic_on_parsed_addresses :
    ∀ (a : IpAddr), a.wf →
      (parseIpAddr (ipAddrToRStr a)).isSome = true ∧
      is_multicast_address (ipAddrToRStr a) ≠ none ∧
      (∀ (ifaceAddrs : List Address) (direction : TrafficDirection),
        get_traffic_type (ipAddrToRStr a) ifaceAddrs direction ≠ none) ∧
      (∀ (info_traffic : InfoTraffic) (key : AddressPortPair)
        (direction : TrafficDirection) (ifaceAddrs : List Address)
        (lookup_result : Option RStr) (country asn : RStr),
        get_address_to_lookup key direction = ipAddrToRStr a →
        reverse_dns_lookup info_traffic key direction ifaceAddrs
          lookup_result country asn ≠ none) := by
  intro a hwf
  have hparse := parseIpAddr_toRStr a hwf
  refine ⟨by rw [hparse]; rfl, ?_, ?_, ?_⟩
  · rw [is_multicast_print_eq_spec a hwf]
    exact Option.some_ne_none _
  · intro ifaceAddrs direction
    rw [get_traffic_type_print_eq_spec a hwf]
    exact Option.some_ne_none _
  · intro info_traffic key direction ifaceAddrs lookup_result country asn hk
    simp only [reverse_dns_lookup, hk, hparse,
      get_traffic_type_print_eq_spec a hwf]
    exact Option.some_ne_none _

/-- Witness for C10 at the concrete address `192.168.1.251`. -/
theorem no_panic_on_parsed_addresses_witness :
    (parseIpAddr (ipAddrToRStr (IpAddr.v4 ⟨192, 168, 1, 251⟩))).isSome
      = true :=
  (no_panic_on_parsed_addresses (IpAddr.v4 ⟨192, 168, 1, 251⟩)
    ⟨by decide, by decide, by decide, by decide⟩).1

/-- **C6** (counterexample). The claim states a total rule: for Outgoing
direction an address that is neither multicast nor broadcast classifies as
Unicast. On the address string `"x"` with an empty interface list the rule
answers Unicast, but the code panics (`parse::<u8>().unwrap()` on the first
dotted group, modelled as `none`). -/
theorem get_traffic_type_claim_counterexample :
    get_traffic_type ("x".toList) [] TrafficDirection.Outgoing = none ∧
    specTrafficType ("x".toList) [] TrafficDirection.Outgoing
      = TrafficType.Unicast := by
  exact ⟨by decide, by decide⟩

/-- **C6** (amended). `get_traffic_type` returns Unicast for every address
string when the direction is Incoming; on the textual form of every
well-formed IP address it computes, for either direction, exactly the
claim's rule (Multicast for IPv4 first octet in `[224, 239]` or an IPv6
form starting with `ff`; else Broadcast for `"255.255.255.255"` or an
interface's directed-broadcast address, defaulting to
`"255.255.255.255"`; else Unicast); and the four boundary cases hold. -/
theorem get_traffic_type_amended_spec :
    (∀ (address : RStr) (ifaceAddrs : List Address),
      get_traffic_type address ifaceAddrs TrafficDirection.Incoming
        = some TrafficType.Unicast) ∧
    (∀ (a : IpAddr), a.wf → ∀ (ifaceAddrs : List Address)
      (direction : TrafficDirection),
      get_traffic_type (ipAddrToRStr a) ifaceAddrs direction
        = some (specTrafficType (ipAddrToRStr a) ifaceAddrs direction)) ∧
    get_traffic_type ("223.255.255.255".toList) [] TrafficDirection.Outgoing
      = some TrafficType.Unicast ∧
    get_traffic_type ("224.0.0.0".toList) [] TrafficDirection.Outgoing
      = some TrafficType.Multicast ∧
    get_traffic_type ("239.255.255.255".toList) [] TrafficDirection.Outgoing
      = some TrafficType.Multicast ∧
    get_traffic_type ("240.0.0.0".toList) [] TrafficDirection.Outgoing
      = some TrafficType.Unicast := by
  refine ⟨?_, ?_, by decide, by decide, by decide, by decide⟩
  · intro address ifaceAddrs
    simp [get_traffic_type]
  · exact fun a hwf ifaceAddrs direction =>
      get_traffic_type_print_eq_spec a hwf ifaceAddrs direction

/-- Witness for the amended C6 at the concrete multicast address
`239.0.0.1`. -/
theorem get_traffic_type_amended_spec_witness :
    get_traffic_type (ipAddrToRStr (IpAddr.v4 ⟨239, 0, 0, 1⟩)) []
        TrafficDirection.Outgoing
      = some (specTrafficType (ipAddrToRStr (IpAddr.v4 ⟨239, 0, 0, 1⟩)) []
        TrafficDirection.Outgoing) :=
  get_traffic_type_amended_spec.2.1 (IpAddr.v4 ⟨239, 0, 0, 1⟩)
    ⟨by decide, by decide, by decide, by decide⟩ [] TrafficDirection.Outgoing

end Sniffnet
